import Mathlib

/-!
Verification development for the `oxide` extractor of this repository
(crates/oxide/src/extractor). The Rust state machines are embedded
shallowly: bytes are `Nat`s (values 0..255 in any real input), each
machine is a structure mirroring the Rust struct, and `next` is a pure
function `M → Cursor → M × MachineState` mirroring `Machine::next`
(which mutates `self` and returns a `MachineState`). Pattern-match arms
are translated in source order, so earlier arms shadow later ones
exactly as in Rust.

`cursor.rs` and `bracket_stack.rs` are not part of the provided sources;
`Cursor` and `BracketStack` below are modelled from the design document
(§3 and §6), which specifies them exactly.
-/

namespace Oxide

/-- Inclusive byte span `[start, stop]` (Rust `Span { start, end }`;
`end` is a Lean keyword, so the field is called `stop`). -/
structure Span where
  start : Nat
  stop : Nat
deriving DecidableEq, Repr

/-- `Span::slice`: `input[start..=end]`. -/
def Span.slice (s : Span) (input : List Nat) : List Nat :=
  (input.drop s.start).take (s.stop + 1 - s.start)

/-- Rust `MachineState`. -/
inductive MachineState where
  | idle
  | parsing
  | done (s : Span)
deriving DecidableEq, Repr

/-- Modelled from the spec: the Cursor (§3) holds the input buffer and a
position; `prev`/`curr`/`next` read the bytes at `pos-1`/`pos`/`pos+1`
with the 0x00 sentinel past either end, and `at_end` is true when `curr`
is the final real byte. -/
structure Cursor where
  input : List Nat
  pos : Nat
deriving DecidableEq, Repr

def Cursor.curr (c : Cursor) : Nat := c.input.getD c.pos 0

def Cursor.next (c : Cursor) : Nat := c.input.getD (c.pos + 1) 0

def Cursor.prev (c : Cursor) : Nat :=
  if c.pos = 0 then 0 else c.input.getD (c.pos - 1) 0

def Cursor.atEnd (c : Cursor) : Bool := c.pos + 1 = c.input.length

/-- `u8::is_ascii_whitespace`: space, tab, line feed, form feed,
carriage return. -/
def isWs (b : Nat) : Bool := b == 32 || b == 9 || b == 10 || b == 12 || b == 13

def isLower (b : Nat) : Bool := 97 ≤ b && b ≤ 122

def isUpper (b : Nat) : Bool := 65 ≤ b && b ≤ 90

def isDigit (b : Nat) : Bool := 48 ≤ b && b ≤ 57

def isAlpha (b : Nat) : Bool := isLower b || isUpper b

def isAlnum (b : Nat) : Bool := isAlpha b || isDigit b

end Oxide

namespace Oxide

/-! ## StringMachine (string_machine.rs) -/

/-- Byte classes of `string_machine.rs` (`CLASS_TABLE`). -/
inductive SClass where
  | singleQuote
  | doubleQuote
  | backtick
  | escape
  | whitespace
  | endOfInput
  | other
deriving DecidableEq, Repr

def sClass (b : Nat) : SClass :=
  if b == 34 then .doubleQuote
  else if b == 39 then .singleQuote
  else if b == 96 then .backtick
  else if b == 92 then .escape
  else if isWs b then .whitespace
  else if b == 0 then .endOfInput
  else .other

inductive QuoteKind where
  | single
  | double
  | backtick
deriving DecidableEq, Repr

inductive SState where
  | idle
  | parsing (k : QuoteKind)
deriving DecidableEq, Repr

instance : Inhabited SState := ⟨.idle⟩

structure StringMachine where
  start_pos : Nat := 0
  skip_until_pos : Option Nat := none
  state : SState := .idle
deriving DecidableEq, Repr

instance : Inhabited StringMachine := ⟨{}⟩

def QuoteKind.sclass : QuoteKind → SClass
  | .single => .singleQuote
  | .double => .doubleQuote
  | .backtick => .backtick

/-- The body of `StringMachine::next` after the skip prelude. One
uniform `Parsing(kind)` branch stands for the three identical Rust
branches (they differ only in the terminator class). -/
def StringMachine.step (m : StringMachine) (c : Cursor) : StringMachine × MachineState :=
  match m.state with
  | .idle =>
    match sClass c.curr with
    | .singleQuote => ({ m with start_pos := c.pos, state := .parsing .single }, .parsing)
    | .doubleQuote => ({ m with start_pos := c.pos, state := .parsing .double }, .parsing)
    | .backtick => ({ m with start_pos := c.pos, state := .parsing .backtick }, .parsing)
    | _ => (m, .idle)
  | .parsing k =>
    if sClass c.curr = .escape ∧ sClass c.next = .whitespace then
      ({}, .idle)
    else if sClass c.curr = .escape ∧ ¬ c.atEnd then
      ({ m with skip_until_pos := some (c.pos + 2) }, .parsing)
    else if sClass c.curr = k.sclass then
      ({}, .done ⟨m.start_pos, c.pos⟩)
    else if sClass c.curr = .whitespace then
      ({}, .idle)
    else
      (m, .parsing)

def StringMachine.next (m : StringMachine) (c : Cursor) : StringMachine × MachineState :=
  match m.skip_until_pos with
  | some skipUntil =>
    if c.pos < skipUntil then (m, .parsing)
    else StringMachine.step { m with skip_until_pos := none } c
  | none => StringMachine.step m c

end Oxide

namespace Oxide

/-! ## CssVariableMachine (css_variable_machine.rs) -/

/-- `Class::AllowedCharacter` of `css_variable_machine.rs`: `[A-Za-z0-9_]`. -/
def cvAllowed (b : Nat) : Bool := b == 95 || isAlnum b

inductive CvState where
  | idle
  | parsing
deriving DecidableEq, Repr

instance : Inhabited CvState := ⟨.idle⟩

structure CssVariableMachine where
  start_pos : Nat := 0
  skip_until_pos : Option Nat := none
  state : CvState := .idle
deriving DecidableEq, Repr

instance : Inhabited CssVariableMachine := ⟨{}⟩

def CssVariableMachine.step (m : CssVariableMachine) (c : Cursor) :
    CssVariableMachine × MachineState :=
  match m.state with
  | .idle =>
    if c.curr == 45 ∧ c.next == 45 then
      ({ m with start_pos := c.pos, skip_until_pos := some (c.pos + 2), state := .parsing },
        .parsing)
    else (m, .idle)
  | .parsing =>
    if (cvAllowed c.curr || c.curr == 45) ∧ c.next == 0 then
      ({}, .done ⟨m.start_pos, c.pos⟩)
    else if (cvAllowed c.curr || c.curr == 45) ∧
        (cvAllowed c.next || c.next == 45 || c.next == 92) then
      (m, .parsing)
    else if cvAllowed c.curr || c.curr == 45 then
      ({}, .done ⟨m.start_pos, c.pos⟩)
    else if c.curr == 92 ∧ isWs c.next then
      ({}, .idle)
    else if c.curr == 92 ∧ ¬ c.atEnd then
      ({ m with skip_until_pos := some (c.pos + 2) }, .parsing)
    else ({}, .idle)

def CssVariableMachine.next (m : CssVariableMachine) (c : Cursor) :
    CssVariableMachine × MachineState :=
  match m.skip_until_pos with
  | some skipUntil =>
    if c.pos < skipUntil then (m, .parsing)
    else CssVariableMachine.step { m with skip_until_pos := none } c
  | none => CssVariableMachine.step m c

/-! ## ArbitraryValueMachine (arbitrary_value_machine.rs) -/

def isQuoteByte (b : Nat) : Bool := b == 34 || b == 39 || b == 96

inductive AvState where
  | idle
  | parsing
  | parsingString
deriving DecidableEq, Repr

instance : Inhabited AvState := ⟨.idle⟩

structure ArbitraryValueMachine where
  start_pos : Nat := 0
  bracket_stack : List Nat := []
  skip_until_pos : Option Nat := none
  state : AvState := .idle
  string_machine : StringMachine := {}
deriving DecidableEq, Repr

instance : Inhabited ArbitraryValueMachine := ⟨{}⟩

/-- Body of `ArbitraryValueMachine::next` after the skip prelude. The
arm order of the source is preserved: the escape arm guarded by
`!cursor.at_end` comes before the escaped-whitespace arm, exactly as in
`arbitrary_value_machine.rs` lines 107–115. -/
def ArbitraryValueMachine.step (m : ArbitraryValueMachine) (c : Cursor) :
    ArbitraryValueMachine × MachineState :=
  match m.state with
  | .idle =>
    if c.curr == 91 then
      ({ m with start_pos := c.pos, state := .parsing }, .parsing)
    else (m, .idle)
  | .parsing =>
    if c.curr == 92 ∧ ¬ c.atEnd then
      ({ m with skip_until_pos := some (c.pos + 2) }, .parsing)
    else if c.curr == 92 ∧ isWs c.next then
      ({}, .idle)
    else if c.curr == 40 then
      ({ m with bracket_stack := 41 :: m.bracket_stack }, .parsing)
    else if c.curr == 91 then
      ({ m with bracket_stack := 93 :: m.bracket_stack }, .parsing)
    else if c.curr == 123 then
      ({ m with bracket_stack := 125 :: m.bracket_stack }, .parsing)
    else if (c.curr == 41 || c.curr == 93 || c.curr == 125) ∧ m.bracket_stack ≠ [] then
      match m.bracket_stack with
      | expected :: rest =>
        if c.curr == expected then ({ m with bracket_stack := rest }, .parsing)
        else ({}, .idle)
      | [] => (m, .parsing)
    else if c.curr == 93 ∧ m.bracket_stack = [] ∧ m.start_pos + 1 ≠ c.pos then
      ({}, .done ⟨m.start_pos, c.pos⟩)
    else if isQuoteByte c.curr then
      ({ m with string_machine := (m.string_machine.next c).1, state := .parsingString },
        .parsing)
    else if isWs c.curr then
      ({}, .idle)
    else (m, .parsing)
  | .parsingString =>
    match m.string_machine.next c with
    | (_, .idle) => ({}, .idle)
    | (sm, .parsing) => ({ m with string_machine := sm }, .parsing)
    | (sm, .done _) => ({ m with string_machine := sm, state := .parsing }, .parsing)

def ArbitraryValueMachine.next (m : ArbitraryValueMachine) (c : Cursor) :
    ArbitraryValueMachine × MachineState :=
  match m.skip_until_pos with
  | some skipUntil =>
    if c.pos < skipUntil then (m, .parsing)
    else ArbitraryValueMachine.step { m with skip_until_pos := none } c
  | none => ArbitraryValueMachine.step m c

end Oxide

namespace Oxide

/-! ## ArbitraryVariableMachine (arbitrary_variable_machine.rs) -/

inductive AvarState where
  | idle
  | parsing
  | parsingFallback
  | parsingString
  | parsingEnd
deriving DecidableEq, Repr

instance : Inhabited AvarState := ⟨.idle⟩

structure ArbitraryVariableMachine where
  start_pos : Nat := 0
  bracket_stack : List Nat := []
  skip_until_pos : Option Nat := none
  state : AvarState := .idle
  string_machine : StringMachine := {}
  css_variable_machine : CssVariableMachine := {}
deriving DecidableEq, Repr

instance : Inhabited ArbitraryVariableMachine := ⟨{}⟩

/-- Body of `ArbitraryVariableMachine::next` after the skip prelude
(source arm order preserved, including the escape arm before the
escaped-whitespace arm in `ParsingFallback`). -/
def ArbitraryVariableMachine.step (m : ArbitraryVariableMachine) (c : Cursor) :
    ArbitraryVariableMachine × MachineState :=
  match m.state with
  | .idle =>
    if c.curr == 40 ∧ c.next == 45 then
      ({ m with start_pos := c.pos, state := .parsing }, .parsing)
    else (m, .idle)
  | .parsing =>
    match m.css_variable_machine.next c with
    | (_, .idle) => ({}, .idle)
    | (cm, .parsing) => ({ m with css_variable_machine := cm }, .parsing)
    | (cm, .done _) =>
      if c.next == 44 then
        ({ m with css_variable_machine := cm, state := .parsingFallback }, .parsing)
      else
        ({ m with css_variable_machine := cm, state := .parsingEnd }, .parsing)
  | .parsingFallback =>
    if c.curr == 92 ∧ ¬ c.atEnd then
      ({ m with skip_until_pos := some (c.pos + 2) }, .parsing)
    else if c.curr == 92 ∧ isWs c.next then
      ({}, .idle)
    else if c.curr == 40 then
      ({ m with bracket_stack := 41 :: m.bracket_stack }, .parsing)
    else if c.curr == 91 then
      ({ m with bracket_stack := 93 :: m.bracket_stack }, .parsing)
    else if c.curr == 123 then
      ({ m with bracket_stack := 125 :: m.bracket_stack }, .parsing)
    else if (c.curr == 41 || c.curr == 93 || c.curr == 125) ∧ m.bracket_stack ≠ [] then
      match m.bracket_stack with
      | expected :: rest =>
        if c.curr == expected then ({ m with bracket_stack := rest }, .parsing)
        else ({}, .idle)
      | [] => (m, .parsing)
    else if c.curr == 41 then
      ({}, .done ⟨m.start_pos, c.pos⟩)
    else if isQuoteByte c.curr then
      ({ m with string_machine := (m.string_machine.next c).1, state := .parsingString },
        .parsing)
    else if c.curr == 58 ∧ m.bracket_stack = [] then
      ({}, .idle)
    else if isWs c.curr then
      ({}, .idle)
    else (m, .parsing)
  | .parsingString =>
    match m.string_machine.next c with
    | (_, .idle) => ({}, .idle)
    | (sm, .parsing) => ({ m with string_machine := sm }, .parsing)
    | (sm, .done _) => ({ m with string_machine := sm, state := .parsingFallback }, .parsing)
  | .parsingEnd =>
    if c.curr == 41 then ({}, .done ⟨m.start_pos, c.pos⟩)
    else ({}, .idle)

def ArbitraryVariableMachine.next (m : ArbitraryVariableMachine) (c : Cursor) :
    ArbitraryVariableMachine × MachineState :=
  match m.skip_until_pos with
  | some skipUntil =>
    if c.pos < skipUntil then (m, .parsing)
    else ArbitraryVariableMachine.step { m with skip_until_pos := none } c
  | none => ArbitraryVariableMachine.step m c

/-! ## ArbitraryPropertyMachine (arbitrary_property_machine.rs) -/

inductive ApState where
  | idle
  | parsingProperty
  | parsingPropertyVariable
  | parsingValue
  | parsingString
deriving DecidableEq, Repr

instance : Inhabited ApState := ⟨.idle⟩

structure ArbitraryPropertyMachine where
  start_pos : Nat := 0
  bracket_stack : List Nat := []
  skip_until_pos : Option Nat := none
  state : ApState := .idle
  css_variable_machine : CssVariableMachine := {}
  string_machine : StringMachine := {}
deriving DecidableEq, Repr

instance : Inhabited ArbitraryPropertyMachine := ⟨{}⟩

/-- Body of `ArbitraryPropertyMachine::next` after the skip prelude
(source arm order preserved, including the escape arm before the
escaped-whitespace arm in `ParsingValue`, lines 111–119). -/
def ArbitraryPropertyMachine.step (m : ArbitraryPropertyMachine) (c : Cursor) :
    ArbitraryPropertyMachine × MachineState :=
  match m.state with
  | .idle =>
    if c.curr == 91 then
      ({ m with start_pos := c.pos, state := .parsingProperty }, .parsing)
    else (m, .idle)
  | .parsingProperty =>
    if c.curr == 45 ∧ c.next == 45 then
      ({ m with
          css_variable_machine := (m.css_variable_machine.next c).1,
          state := .parsingPropertyVariable }, .parsing)
    else if isAlpha c.curr || c.curr == 45 then
      (m, .parsing)
    else if c.curr == 58 ∧ c.pos > m.start_pos + 1 then
      ({ m with state := .parsingValue }, .parsing)
    else ({}, .idle)
  | .parsingPropertyVariable =>
    match m.css_variable_machine.next c with
    | (_, .idle) => ({}, .idle)
    | (cm, .parsing) => ({ m with css_variable_machine := cm }, .parsing)
    | (cm, .done _) =>
      if c.next == 58 then
        ({ m with
            css_variable_machine := cm,
            skip_until_pos := some (c.pos + 2),
            state := .parsingValue }, .parsing)
      else ({}, .idle)
  | .parsingValue =>
    if c.curr == 92 ∧ ¬ c.atEnd then
      ({ m with skip_until_pos := some (c.pos + 2) }, .parsing)
    else if c.curr == 92 ∧ isWs c.next then
      ({}, .idle)
    else if c.curr == 40 then
      ({ m with bracket_stack := 41 :: m.bracket_stack }, .parsing)
    else if c.curr == 91 then
      ({ m with bracket_stack := 93 :: m.bracket_stack }, .parsing)
    else if c.curr == 123 then
      ({ m with bracket_stack := 125 :: m.bracket_stack }, .parsing)
    else if (c.curr == 41 || c.curr == 93 || c.curr == 125) ∧ m.bracket_stack ≠ [] then
      match m.bracket_stack with
      | expected :: rest =>
        if c.curr == expected then ({ m with bracket_stack := rest }, .parsing)
        else ({}, .idle)
      | [] => (m, .parsing)
    else if c.curr == 93 ∧ m.bracket_stack = [] ∧ m.start_pos + 1 ≠ c.pos then
      ({}, .done ⟨m.start_pos, c.pos⟩)
    else if isQuoteByte c.curr then
      ({ m with string_machine := (m.string_machine.next c).1, state := .parsingString },
        .parsing)
    else if c.curr == 58 ∧ m.bracket_stack = [] then
      ({}, .idle)
    else if isWs c.curr then
      ({}, .idle)
    else (m, .parsing)
  | .parsingString =>
    match m.string_machine.next c with
    | (_, .idle) => ({}, .idle)
    | (sm, .parsing) => ({ m with string_machine := sm }, .parsing)
    | (sm, .done _) => ({ m with string_machine := sm, state := .parsingValue }, .parsing)

def ArbitraryPropertyMachine.next (m : ArbitraryPropertyMachine) (c : Cursor) :
    ArbitraryPropertyMachine × MachineState :=
  match m.skip_until_pos with
  | some skipUntil =>
    if c.pos < skipUntil then (m, .parsing)
    else ArbitraryPropertyMachine.step { m with skip_until_pos := none } c
  | none => ArbitraryPropertyMachine.step m c

/-! ## ModifierMachine (modifier_machine.rs) -/

inductive ArbitraryVariableStage where
  | inside
  | atEnd
deriving DecidableEq, Repr

inductive ModState where
  | idle
  | parsingNamed
  | parsingArbitraryValue
  | parsingArbitraryVariable (stage : ArbitraryVariableStage)
deriving DecidableEq, Repr

instance : Inhabited ModState := ⟨.idle⟩

/-- `[a-zA-Z0-9_.-]`, the named-modifier character class. -/
def isModifierChar (b : Nat) : Bool := isAlnum b || b == 45 || b == 95 || b == 46

structure ModifierMachine where
  start_pos : Nat := 0
  skip_until_pos : Option Nat := none
  state : ModState := .idle
  arbitrary_value_machine : ArbitraryValueMachine := {}
  css_variable_machine : CssVariableMachine := {}
deriving DecidableEq, Repr

instance : Inhabited ModifierMachine := ⟨{}⟩

def ModifierMachine.step (m : ModifierMachine) (c : Cursor) :
    ModifierMachine × MachineState :=
  match m.state with
  | .idle =>
    if c.curr == 47 ∧ c.next == 91 then
      ({ m with start_pos := c.pos, state := .parsingArbitraryValue }, .parsing)
    else if c.curr == 47 ∧ c.next == 40 then
      ({ m with
          start_pos := c.pos,
          skip_until_pos := some (c.pos + 2),
          state := .parsingArbitraryVariable .inside }, .parsing)
    else if c.curr == 47 ∧ isAlnum c.next then
      ({ m with start_pos := c.pos, state := .parsingNamed }, .parsing)
    else (m, .idle)
  | .parsingNamed =>
    if isModifierChar c.curr ∧ isModifierChar c.next then
      (m, .parsing)
    else if isModifierChar c.curr then
      ({}, .done ⟨m.start_pos, c.pos⟩)
    else ({}, .idle)
  | .parsingArbitraryValue =>
    match m.arbitrary_value_machine.next c with
    | (_, .idle) => ({}, .idle)
    | (am, .parsing) => ({ m with arbitrary_value_machine := am }, .parsing)
    | (_, .done _) => ({}, .done ⟨m.start_pos, c.pos⟩)
  | .parsingArbitraryVariable .inside =>
    match m.css_variable_machine.next c with
    | (_, .idle) => ({}, .idle)
    | (cm, .parsing) => ({ m with css_variable_machine := cm }, .parsing)
    | (cm, .done _) =>
      ({ m with
          css_variable_machine := cm,
          state := .parsingArbitraryVariable .atEnd }, .parsing)
  | .parsingArbitraryVariable .atEnd =>
    if c.curr == 41 then ({}, .done ⟨m.start_pos, c.pos⟩)
    else ({}, .idle)

def ModifierMachine.next (m : ModifierMachine) (c : Cursor) :
    ModifierMachine × MachineState :=
  match m.skip_until_pos with
  | some skipUntil =>
    if c.pos < skipUntil then (m, .parsing)
    else ModifierMachine.step { m with skip_until_pos := none } c
  | none => ModifierMachine.step m c

end Oxide

namespace Oxide

/-! ## NamedUtilityMachine (named_utility_machine.rs) -/

inductive NuState where
  | idle
  | parsing
  | parsingArbitraryValue
  | parsingArbitraryVariable (stage : ArbitraryVariableStage)
deriving DecidableEq, Repr

instance : Inhabited NuState := ⟨.idle⟩

/-- `[-_.A-Za-z0-9]`, the characters that may continue a named utility. -/
def isNamedCont (b : Nat) : Bool := b == 45 || b == 95 || b == 46 || isAlnum b

/-- `[_.A-Za-z0-9]`, the characters on which a named utility may end. -/
def isNamedCur (b : Nat) : Bool := b == 95 || b == 46 || isAlnum b

structure NamedUtilityMachine where
  start_pos : Nat := 0
  skip_until_pos : Option Nat := none
  state : NuState := .idle
  arbitrary_value_machine : ArbitraryValueMachine := {}
  css_variable_machine : CssVariableMachine := {}
deriving DecidableEq, Repr

instance : Inhabited NamedUtilityMachine := ⟨{}⟩

def NamedUtilityMachine.step (m : NamedUtilityMachine) (c : Cursor) :
    NamedUtilityMachine × MachineState :=
  match m.state with
  | .idle =>
    if c.curr == 45 ∧ c.next == 45 then
      ({}, .idle)
    else if c.curr == 47 then
      ({}, .idle)
    else if c.curr == 60 then
      ({}, .idle)
    else if isLower c.curr ∧ (isWs c.next || c.atEnd) then
      ({}, .done ⟨c.pos, c.pos⟩)
    else if isLower c.curr || c.curr == 64 then
      ({ m with start_pos := c.pos, state := .parsing }, .parsing)
    else if c.curr == 45 ∧ isAlpha c.next then
      ({ m with start_pos := c.pos, state := .parsing }, .parsing)
    else (m, .idle)
  | .parsing =>
    if c.curr == 45 ∧ c.next == 91 then
      ({ m with state := .parsingArbitraryValue }, .parsing)
    else if c.curr == 45 ∧ c.next == 40 then
      ({ m with
          skip_until_pos := some (c.pos + 2),
          state := .parsingArbitraryVariable .inside }, .parsing)
    else if c.curr == 45 ∧ isNamedCont c.next then
      (m, .parsing)
    else if isAlnum c.curr ∧ c.atEnd then
      ({}, .done ⟨m.start_pos, c.pos⟩)
    else if isNamedCur c.curr ∧ ¬ isNamedCont c.next then
      ({}, .done ⟨m.start_pos, c.pos⟩)
    else if isNamedCur c.curr then
      (m, .parsing)
    else ({}, .idle)
  | .parsingArbitraryValue =>
    match m.arbitrary_value_machine.next c with
    | (_, .idle) => ({}, .idle)
    | (am, .parsing) => ({ m with arbitrary_value_machine := am }, .parsing)
    | (_, .done _) => ({}, .done ⟨m.start_pos, c.pos⟩)
  | .parsingArbitraryVariable .inside =>
    match m.css_variable_machine.next c with
    | (_, .idle) => ({}, .idle)
    | (cm, .parsing) => ({ m with css_variable_machine := cm }, .parsing)
    | (cm, .done _) =>
      ({ m with
          css_variable_machine := cm,
          state := .parsingArbitraryVariable .atEnd }, .parsing)
  | .parsingArbitraryVariable .atEnd =>
    if c.curr == 41 then ({}, .done ⟨m.start_pos, c.pos⟩)
    else ({}, .idle)

def NamedUtilityMachine.next (m : NamedUtilityMachine) (c : Cursor) :
    NamedUtilityMachine × MachineState :=
  match m.skip_until_pos with
  | some skipUntil =>
    if c.pos < skipUntil then (m, .parsing)
    else NamedUtilityMachine.step { m with skip_until_pos := none } c
  | none => NamedUtilityMachine.step m c

/-! ## NamedVariantMachine (named_variant_machine.rs) -/

inductive NvState where
  | idle
  | parsing
  | parsingArbitraryValue
  | parsingArbitraryVariable
  | parsingModifier
  | parseEnd
deriving DecidableEq, Repr

instance : Inhabited NvState := ⟨.idle⟩

structure NamedVariantMachine where
  start_pos : Nat := 0
  state : NvState := .idle
  arbitrary_variable_machine : ArbitraryVariableMachine := {}
  arbitrary_value_machine : ArbitraryValueMachine := {}
  modifier_machine : ModifierMachine := {}
deriving DecidableEq, Repr

instance : Inhabited NamedVariantMachine := ⟨{}⟩

def NamedVariantMachine.next (m : NamedVariantMachine) (c : Cursor) :
    NamedVariantMachine × MachineState :=
  match m.state with
  | .idle =>
    if (isLower c.curr || c.curr == 42 || c.curr == 45 || c.curr == 95) ∧ c.next == 58 then
      ({ m with state := .parseEnd }, .parsing)
    else if isLower c.curr || isDigit c.curr || c.curr == 42 || c.curr == 45 ||
        c.curr == 95 || c.curr == 64 then
      ({ m with start_pos := c.pos, state := .parsing }, .parsing)
    else (m, .idle)
  | .parsing =>
    if c.curr == 45 ∧ c.next == 91 then
      ({ m with state := .parsingArbitraryValue }, .parsing)
    else if c.curr == 45 ∧ c.next == 40 then
      ({ m with state := .parsingArbitraryVariable }, .parsing)
    else if (c.curr == 45 || c.curr == 95) ∧
        (c.next == 45 || c.next == 95 || isAlnum c.next) then
      (m, .parsing)
    else if c.curr == 95 || isAlnum c.curr || c.curr == 42 then
      (m, .parsing)
    else if c.curr == 47 then
      ({ m with
          modifier_machine := (m.modifier_machine.next c).1,
          state := .parsingModifier }, .parsing)
    else if c.curr == 58 then
      ({}, .done ⟨m.start_pos, c.pos⟩)
    else ({}, .idle)
  | .parsingArbitraryValue =>
    match m.arbitrary_value_machine.next c with
    | (_, .idle) => ({}, .idle)
    | (am, .parsing) => ({ m with arbitrary_value_machine := am }, .parsing)
    | (am, .done _) =>
      if c.next == 47 then
        ({ m with arbitrary_value_machine := am, state := .parsingModifier }, .parsing)
      else if c.next == 58 then
        ({ m with arbitrary_value_machine := am, state := .parseEnd }, .parsing)
      else ({}, .idle)
  | .parsingArbitraryVariable =>
    match m.arbitrary_variable_machine.next c with
    | (_, .idle) => ({}, .idle)
    | (am, .parsing) => ({ m with arbitrary_variable_machine := am }, .parsing)
    | (am, .done _) =>
      if c.next == 47 then
        ({ m with arbitrary_variable_machine := am, state := .parsingModifier }, .parsing)
      else if c.next == 58 then
        ({ m with arbitrary_variable_machine := am, state := .parseEnd }, .parsing)
      else ({}, .idle)
  | .parsingModifier =>
    match m.modifier_machine.next c with
    | (_, .idle) => ({}, .idle)
    | (mm, .parsing) => ({ m with modifier_machine := mm }, .parsing)
    | (mm, .done _) =>
      if c.next == 58 then
        ({ m with modifier_machine := mm, state := .parseEnd }, .parsing)
      else ({}, .idle)
  | .parseEnd =>
    if c.curr == 58 then ({}, .done ⟨m.start_pos, c.pos⟩)
    else ({}, .idle)

end Oxide

namespace Oxide

/-! ## UtilityMachine (utility_machine.rs) -/

inductive UState where
  | idle
  | parsingNamedUtility
  | parsingArbitraryProperty
  | parsingModifier
  | parsingImportant
deriving DecidableEq, Repr

instance : Inhabited UState := ⟨.idle⟩

structure UtilityMachine where
  start_pos : Nat := 0
  state : UState := .idle
  arbitrary_property_machine : ArbitraryPropertyMachine := {}
  named_utility_machine : NamedUtilityMachine := {}
  modifier_machine : ModifierMachine := {}
deriving DecidableEq, Repr

instance : Inhabited UtilityMachine := ⟨{}⟩

/-- `UtilityMachine::parse_named`: record the start, switch to
`ParsingNamedUtility`, feed the named-utility machine at the current
cursor and return its result (the Rust function returns
`self.named_utility_machine.next(cursor)`). -/
def UtilityMachine.parseNamed (m : UtilityMachine) (c : Cursor) :
    UtilityMachine × MachineState :=
  let r := m.named_utility_machine.next c
  ({ m with
      start_pos := c.pos,
      state := .parsingNamedUtility,
      named_utility_machine := r.1 }, r.2)

def UtilityMachine.next (m : UtilityMachine) (c : Cursor) :
    UtilityMachine × MachineState :=
  match m.state with
  | .idle =>
    if c.curr == 33 ∧ c.next == 91 then
      ({ m with start_pos := c.pos, state := .parsingArbitraryProperty }, .parsing)
    else if c.curr == 91 then
      ({ m with
          arbitrary_property_machine := (m.arbitrary_property_machine.next c).1,
          start_pos := c.pos,
          state := .parsingArbitraryProperty }, .parsing)
    else if isLower c.curr ∧ (isWs c.next || c.atEnd) then
      m.parseNamed c
    else if c.curr == 33 ∧ (isLower c.next || c.next == 64) then
      m.parseNamed c
    else if c.curr == 45 || isLower c.curr then
      m.parseNamed c
    else (m, .idle)
  | .parsingNamedUtility =>
    match m.named_utility_machine.next c with
    | (_, .idle) => ({}, .idle)
    | (nm, .parsing) => ({ m with named_utility_machine := nm }, .parsing)
    | (nm, .done _) =>
      if c.next == 47 then
        ({ m with named_utility_machine := nm, state := .parsingModifier }, .parsing)
      else if c.next == 33 then
        ({ m with named_utility_machine := nm, state := .parsingImportant }, .parsing)
      else ({}, .done ⟨m.start_pos, c.pos⟩)
  | .parsingArbitraryProperty =>
    match m.arbitrary_property_machine.next c with
    | (_, .idle) => ({}, .idle)
    | (am, .parsing) => ({ m with arbitrary_property_machine := am }, .parsing)
    | (am, .done _) =>
      if c.next == 47 then
        ({ m with arbitrary_property_machine := am, state := .parsingModifier }, .parsing)
      else if c.next == 33 then
        ({ m with arbitrary_property_machine := am, state := .parsingImportant }, .parsing)
      else ({}, .done ⟨m.start_pos, c.pos⟩)
  | .parsingModifier =>
    match m.modifier_machine.next c with
    | (_, .idle) => ({}, .idle)
    | (mm, .parsing) => ({ m with modifier_machine := mm }, .parsing)
    | (mm, .done _) =>
      if c.next == 47 then
        ({}, .idle)
      else if c.next == 33 then
        ({ m with modifier_machine := mm, state := .parsingImportant }, .parsing)
      else ({}, .done ⟨m.start_pos, c.pos⟩)
  | .parsingImportant =>
    if c.curr == 33 ∧ c.input.getD m.start_pos 0 ≠ 33 then
      ({}, .done ⟨m.start_pos, c.pos⟩)
    else ({}, .idle)

/-! ## VariantMachine (variant_machine.rs) -/

inductive VState where
  | idle
  | parsingNamedVariant
  | parsingArbitraryVariant
  | parsingModifier
  | parseEnd
deriving DecidableEq, Repr

instance : Inhabited VState := ⟨.idle⟩

structure VariantMachine where
  start_pos : Nat := 0
  skip_until_pos : Option Nat := none
  state : VState := .idle
  arbitrary_value_machine : ArbitraryValueMachine := {}
  named_utility_machine : NamedUtilityMachine := {}
  modifier_machine : ModifierMachine := {}
deriving DecidableEq, Repr

instance : Inhabited VariantMachine := ⟨{}⟩

/-- Body of `VariantMachine::next` after the skip prelude. Note that the
named branch of this machine drives a `NamedUtilityMachine` (field
`named_utility_machine` of `variant_machine.rs`). -/
def VariantMachine.step (m : VariantMachine) (c : Cursor) :
    VariantMachine × MachineState :=
  match m.state with
  | .idle =>
    if c.curr == 91 then
      ({ m with
          start_pos := c.pos,
          arbitrary_value_machine := (m.arbitrary_value_machine.next c).1,
          state := .parsingArbitraryVariant }, .parsing)
    else if isLower c.curr ∧ c.next == 58 then
      ({ m with start_pos := c.pos, state := .parseEnd }, .parsing)
    else if c.curr == 45 || c.curr == 95 || isLower c.curr || c.curr == 64 then
      ({ m with
          start_pos := c.pos,
          named_utility_machine := (m.named_utility_machine.next c).1,
          state := .parsingNamedVariant }, .parsing)
    else (m, .idle)
  | .parsingNamedVariant =>
    match m.named_utility_machine.next c with
    | (_, .idle) => ({}, .idle)
    | (nm, .parsing) => ({ m with named_utility_machine := nm }, .parsing)
    | (nm, .done _) =>
      if c.next == 47 then
        ({ m with named_utility_machine := nm, state := .parsingModifier }, .parsing)
      else if c.next == 58 then
        ({ m with named_utility_machine := nm, state := .parseEnd }, .parsing)
      else ({}, .idle)
  | .parsingArbitraryVariant =>
    match m.arbitrary_value_machine.next c with
    | (_, .idle) => ({}, .idle)
    | (am, .parsing) => ({ m with arbitrary_value_machine := am }, .parsing)
    | (am, .done _) =>
      if c.next == 58 then
        ({ m with arbitrary_value_machine := am, state := .parseEnd }, .parsing)
      else ({}, .idle)
  | .parsingModifier =>
    match m.modifier_machine.next c with
    | (_, .idle) => ({}, .idle)
    | (mm, .parsing) => ({ m with modifier_machine := mm }, .parsing)
    | (mm, .done _) =>
      if c.next == 58 then
        ({ m with modifier_machine := mm, state := .parseEnd }, .parsing)
      else ({}, .idle)
  | .parseEnd =>
    if c.curr == 58 then ({}, .done ⟨m.start_pos, c.pos⟩)
    else ({}, .idle)

def VariantMachine.next (m : VariantMachine) (c : Cursor) :
    VariantMachine × MachineState :=
  match m.skip_until_pos with
  | some skipUntil =>
    if c.pos < skipUntil then (m, .parsing)
    else VariantMachine.step { m with skip_until_pos := none } c
  | none => VariantMachine.step m c

end Oxide

namespace Oxide

/-! ## CandidateMachine (candidate_machine.rs) -/

inductive CState where
  | idle
  | parsing
  | resumeAtBoundary
deriving DecidableEq, Repr

instance : Inhabited CState := ⟨.idle⟩

structure CandidateMachine where
  start_pos : Nat := 0
  last_variant_end_pos : Option Nat := none
  skip_until_pos : Option Nat := none
  state : CState := .idle
  utility_machine : UtilityMachine := {}
  variant_machine : VariantMachine := {}
deriving DecidableEq, Repr

instance : Inhabited CandidateMachine := ⟨{}⟩

/-- `CandidateMachine::resume_at_boundary`: reset, then mark the state. -/
def CandidateMachine.resumeAtBoundary : CandidateMachine × MachineState :=
  ({ state := .resumeAtBoundary }, .idle)

/-- `CandidateMachine::is_boundary_character`. -/
def isBoundaryChar (b : Nat) : Bool :=
  isWs b || b == 34 || b == 39 || b == 96 || b == 61

/-- Characters that may not follow a completed candidate
(`candidate_machine.rs` lines 179–186): `/ ! = # - [ ( :`. -/
def isRejectedFollower (b : Nat) : Bool :=
  b == 47 || b == 33 || b == 61 || b == 35 || b == 45 || b == 91 || b == 40 || b == 58

/-- Body of `CandidateMachine::next` after the skip prelude, with the
Rust match arms in source order (the joint state table of
`candidate_machine.rs` lines 70–201). -/
def CandidateMachine.step (m : CandidateMachine) (c : Cursor) :
    CandidateMachine × MachineState :=
  match m.state with
  | .idle =>
    if c.curr == 45 ∧ c.next == 45 then
      CandidateMachine.resumeAtBoundary
    else if c.curr == 60 then
      CandidateMachine.resumeAtBoundary
    else if c.curr == 47 then
      CandidateMachine.resumeAtBoundary
    else
      let v := m.variant_machine.next c
      let u := m.utility_machine.next c
      let m' := { m with variant_machine := v.1, utility_machine := u.1 }
      match v.2, u.2 with
      | _, .done s => (m', .done s)
      | .parsing, _ => ({ m' with start_pos := c.pos, state := .parsing }, .parsing)
      | _, .parsing => ({ m' with start_pos := c.pos, state := .parsing }, .parsing)
      | _, _ => (m', .idle)
  | .parsing =>
    let v := m.variant_machine.next c
    let u := m.utility_machine.next c
    let m' := { m with variant_machine := v.1, utility_machine := u.1 }
    match v.2, u.2 with
    | .idle, .idle => ({}, .idle)
    | .parsing, .parsing => (m', .parsing)
    | .done s, _ =>
      match m.last_variant_end_pos with
      | some endPos =>
        if endPos + 1 > s.start then
          CandidateMachine.resumeAtBoundary
        else
          ({ m' with
              last_variant_end_pos := some c.pos,
              variant_machine := {},
              utility_machine := {} }, .parsing)
      | none =>
        ({ m' with
            last_variant_end_pos := some c.pos,
            variant_machine := {},
            utility_machine := {} }, .parsing)
    | .parsing, .done s =>
      if c.next == 58 then
        match m.last_variant_end_pos, c.input.get? (c.pos + 2) with
        | none, some x =>
          if isWs x then ({}, .done ⟨m.start_pos, c.pos⟩)
          else ({ m' with utility_machine := {} }, .parsing)
        | _, _ => ({ m' with utility_machine := {} }, .parsing)
      else
        match m.last_variant_end_pos with
        | some endPos =>
          if endPos + 1 > s.start then (m', .done s)
          else ({}, .done ⟨m.start_pos, c.pos⟩)
        | none => (m', .done s)
    | .idle, .parsing => (m', .parsing)
    | .parsing, .idle => (m', .parsing)
    | .idle, .done s =>
      if isRejectedFollower c.next then
        CandidateMachine.resumeAtBoundary
      else
        match m.last_variant_end_pos with
        | some endPos =>
          if endPos + 1 > s.start then (m', .done s)
          else ({}, .done ⟨m.start_pos, c.pos⟩)
        | none => (m', .done s)
  | .resumeAtBoundary =>
    if isBoundaryChar c.curr then ({}, .idle)
    else (m, .idle)

def CandidateMachine.next (m : CandidateMachine) (c : Cursor) :
    CandidateMachine × MachineState :=
  match m.skip_until_pos with
  | some skipUntil =>
    if c.pos < skipUntil then (m, .parsing)
    else CandidateMachine.step { m with skip_until_pos := none } c
  | none => CandidateMachine.step m c

end Oxide

namespace Oxide

/-! ## Extractor (mod.rs) -/

/-- A tagged extracted span (the Rust `Extracted` holds the sliced
bytes; the span form is kept so that bounds can be stated). -/
inductive ExtractedSpan where
  | candidate (s : Span)
  | cssVariable (s : Span)
deriving DecidableEq, Repr

/-- Rust `Extracted`: tagged slices of the input. -/
inductive Extracted where
  | candidate (bytes : List Nat)
  | cssVariable (bytes : List Nat)
deriving DecidableEq, Repr

/-- The mutable state of `Extractor::extract`: the three machines, the
nested candidate machines, and the two accumulators. -/
structure ExtractorState where
  candidate_machine : CandidateMachine := {}
  css_variable_machine : CssVariableMachine := {}
  candidate_machines : List CandidateMachine := []
  in_flight_spans : List Span := []
  css_variable_spans : List Span := []
deriving DecidableEq, Repr

instance : Inhabited ExtractorState := ⟨{}⟩

/-- The nested-candidate-machine block of the scan loop (mod.rs lines
114–130): on whitespace all nested machines are discarded; otherwise
each is fed (its `Done` result is discarded: the push into
`in_flight_spans` is commented out in the source, mod.rs line 122) and a
fresh machine is pushed on `[`. -/
def extractNested (input : List Nat) (ms : List CandidateMachine) (i : Nat) :
    List CandidateMachine :=
  let c : Cursor := ⟨input, i⟩
  if isWs c.curr then
    []
  else
    let fed := ms.map (fun m => (m.next c).1)
    if c.curr == 91 then fed ++ [({} : CandidateMachine)] else fed

/-- One iteration of the `for i in 0..len` loop of `Extractor::extract`
(mod.rs lines 85–139). -/
def extractStep (input : List Nat) (st : ExtractorState) (i : Nat) : ExtractorState :=
  let c : Cursor := ⟨input, i⟩
  let st := { st with candidate_machines := extractNested input st.candidate_machines i }
  let st :=
    match st.candidate_machine.next c with
    | (cm, .done s) =>
      { st with candidate_machine := cm, in_flight_spans := st.in_flight_spans ++ [s] }
    | (cm, _) => { st with candidate_machine := cm }
  match st.css_variable_machine.next c with
  | (vm, .done s) =>
    { st with
        css_variable_machine := vm,
        css_variable_spans := st.css_variable_spans ++ [s] }
  | (vm, _) => { st with css_variable_machine := vm }

/-- The scan loop, positions `i, i+1, …, i+k-1`. -/
def extractLoop (input : List Nat) : Nat → Nat → ExtractorState → ExtractorState
  | 0, _, st => st
  | k + 1, i, st => extractLoop input k (i + 1) (extractStep input st i)

/-- `naive_drop_covered_spans`, step 2: iterate in sorted order keeping
a span exactly when its `end` exceeds the running `max_end`. -/
def dropCoveredGo : Option Nat → List Span → List Span
  | _, [] => []
  | none, s :: rest => s :: dropCoveredGo (some s.stop) rest
  | some e, s :: rest =>
    if s.stop > e then s :: dropCoveredGo (some s.stop) rest
    else dropCoveredGo (some e) rest

/-- The sort order of `naive_drop_covered_spans`, step 1:
`a.start.cmp(&b.start).then(b.end.cmp(&a.end))` — by `start` ascending,
ties by `end` descending. -/
def spanLe (a b : Span) : Prop :=
  a.start < b.start ∨ (a.start = b.start ∧ b.stop ≤ a.stop)

instance : DecidableRel spanLe := fun a b => by
  unfold spanLe
  exact inferInstance

/-- `naive_drop_covered_spans` (mod.rs lines 154–175). Rust's stable
`sort_by` is rendered as an insertion sort with the same comparator:
spans tied under the comparator are equal as values, so every sort
produces the same list. -/
def naiveDropCoveredSpans (spans : List Span) : List Span :=
  dropCoveredGo none (List.insertionSort spanLe spans)

/-- `Extractor::extract`, producing tagged spans: CSS variables in scan
order, then the surviving candidate spans. -/
def extractSpans (input : List Nat) : List ExtractedSpan :=
  let st := extractLoop input input.length 0 {}
  let vars := st.css_variable_spans.map ExtractedSpan.cssVariable
  if st.in_flight_spans ≠ [] then
    vars ++ (naiveDropCoveredSpans st.in_flight_spans).map ExtractedSpan.candidate
  else vars

/-- `Extractor::extract` with the spans sliced, as the Rust function
returns them. -/
def extract (input : List Nat) : List Extracted :=
  (extractSpans input).map fun e =>
    match e with
    | .candidate s => .candidate (s.slice input)
    | .cssVariable s => .cssVariable (s.slice input)

end Oxide

namespace Oxide

/-! ## Ruby pre-processor (pre_processors/ruby.rs) -/

/-- Modelled from the spec (§6): the bracket stack used by the
pre-processor to respect nested bracket balancing (`bracket_stack.rs` is
not among the provided sources). `push` records the closing byte
matching an opening bracket; `pop` removes the top entry and reports
whether it matches the closing byte seen. -/
structure BracketStack where
  stack : List Nat := []
deriving DecidableEq, Repr

def BracketStack.push (bs : BracketStack) (bracket : Nat) : BracketStack :=
  if bracket == 40 then ⟨41 :: bs.stack⟩
  else if bracket == 91 then ⟨93 :: bs.stack⟩
  else if bracket == 123 then ⟨125 :: bs.stack⟩
  else bs

def BracketStack.pop (bs : BracketStack) (bracket : Nat) : BracketStack × Bool :=
  match bs.stack with
  | t :: rest => (⟨rest⟩, t == bracket)
  | [] => (⟨[]⟩, false)

def BracketStack.isEmpty (bs : BracketStack) : Bool := bs.stack.isEmpty

/-- The inner `while cursor.pos < len` loop of `Ruby::process` (ruby.rs
lines 45–81). Scanning reads the original `content`; replacements go
into `result`. Returns the updated `result` and the cursor position at
loop exit (at the boundary byte after a `break`, or `≥ len`). The fuel
only bounds the recursion; the cursor advances on every iteration that
does not `break`, so `len + 2` fuel is never exhausted. -/
def Ruby.inner (content : List Nat) (len boundary : Nat) :
    Nat → BracketStack → List Nat → Nat → List Nat × Nat
  | 0, _, result, pos => (result, pos)
  | fuel + 1, bs, result, pos =>
    if pos < len then
      let curr := content.getD pos 0
      if curr == 92 then
        let result := if content.getD (pos + 1) 0 == 32 then result.set pos 32 else result
        Ruby.inner content len boundary fuel bs result (pos + 2)
      else if curr == 91 || curr == 40 || curr == 123 then
        Ruby.inner content len boundary fuel (bs.push curr) result (pos + 1)
      else if (curr == 93 || curr == 41 || curr == 125) ∧ ¬ bs.isEmpty then
        let popped := bs.pop curr
        if popped.2 then
          Ruby.inner content len boundary fuel popped.1 result (pos + 1)
        else
          Ruby.inner content len boundary fuel popped.1 result (pos + 2)
      else if curr == boundary then
        (result.set pos 32, pos)
      else
        Ruby.inner content len boundary fuel bs result (pos + 1)
    else (result, pos)

/-- The outer `while cursor.pos < len` loop of `Ruby::process` (ruby.rs
lines 17–82), including the marker test of line 19 exactly as written:
the loop skips ahead only when `curr != '%' && !matches!(next, 'w'|'W')`. -/
def Ruby.outer (content : List Nat) (len : Nat) :
    Nat → Nat → List Nat → List Nat
  | 0, _, result => result
  | fuel + 1, pos, result =>
    if pos < len then
      if ¬ (content.getD pos 0 == 37) ∧
          ¬ (content.getD (pos + 1) 0 == 119 || content.getD (pos + 1) 0 == 87) then
        Ruby.outer content len fuel (pos + 1) result
      else
        let pos := pos + 2
        let curr := content.getD pos 0
        let boundary :=
          if curr == 91 then some 93
          else if curr == 40 then some 41
          else if curr == 123 then some 125
          else none
        match boundary with
        | none => Ruby.outer content len fuel (pos + 1) result
        | some b =>
          let result := result.set pos 32
          let inner := Ruby.inner content len b (len + 2) {} result (pos + 1)
          Ruby.outer content len fuel inner.2 inner.1
    else result

/-- `Ruby::process`. -/
def Ruby.process (content : List Nat) : List Nat :=
  Ruby.outer content content.length (content.length + 2) 0 content

end Oxide

namespace Oxide

/-! ## Per-machine scan runs

The per-machine unit tests and the per-machine claims drive one machine
over a sequence of cursor positions: `cursor.move_to(i); machine.next`.
`runOn` performs the run at an arbitrary position list (positions are
fed in the order given) and collects the `Done` spans. -/

def runOn {σ : Type} (nextFn : σ → Cursor → σ × MachineState) (m : σ)
    (input : List Nat) : List Nat → List Span
  | [] => []
  | p :: ps =>
    match nextFn m ⟨input, p⟩ with
    | (m', .done s) => s :: runOn nextFn m' input ps
    | (m', _) => runOn nextFn m' input ps

/-- The standard scan `for i in 0..len`. -/
def run {σ : Type} (nextFn : σ → Cursor → σ × MachineState) (m : σ)
    (input : List Nat) : List Span :=
  runOn nextFn m input (List.range input.length)

end Oxide

namespace Oxide

/-! ## Concrete inputs used by the claims -/

/-- `[CssClass("flex",'italic')]` -/
def inputCssClass : List Nat :=
  [91, 67, 115, 115, 67, 108, 97, 115, 115, 40, 34, 102, 108, 101, 120, 34, 44,
    39, 105, 116, 97, 108, 105, 99, 39, 41, 93]

/-- `[a\ b]` — an arbitrary value containing an escaped space. -/
def inputEscapedSpace : List Nat := [91, 97, 92, 32, 98, 93]

/-- `a.b` — a named utility whose dot is surrounded by letters. -/
def inputDotted : List Nat := [97, 46, 98]

/-- `*:` — the universal variant. -/
def inputStarColon : List Nat := [42, 58]

end Oxide

set_option maxRecDepth 100000

namespace Oxide

/-- C1: For the input `[CssClass("flex",'italic')]`, `Extractor::extract`
returns exactly the candidates `flex` and `italic` (and no CSS
variables): the outer bracketed text fails to parse as an arbitrary
property (no top-level `:`), and the spans of `flex` (bytes 11–14) and
`italic` (bytes 18–23) — the very spans the nested CandidateMachines
started at `[` complete — appear in the output and survive the coverage
rule of §4.14. -/
theorem claim_C1_cssclass_extraction :
    extract inputCssClass =
      [.candidate [102, 108, 101, 120], .candidate [105, 116, 97, 108, 105, 99]] ∧
    extractSpans inputCssClass = [.candidate ⟨11, 14⟩, .candidate ⟨18, 23⟩] := by
  decide

/-- C2 (evaluation at the failing input): feeding `[a\ b]` position by
position to `ArbitraryValueMachine` emits the span 0–5, whose slice is
the full `[a\ b]` including the escaped space bytes `\ ` (92, 32). The
machine does not invalidate on `\` followed by whitespace while Parsing:
the escape arm guarded by `!cursor.at_end` precedes and shadows the
escaped-whitespace arm (arbitrary_value_machine.rs lines 107–115). -/
theorem claim_C2_escaped_whitespace_emitted :
    run ArbitraryValueMachine.next {} inputEscapedSpace = [⟨0, 5⟩] ∧
    Span.slice ⟨0, 5⟩ inputEscapedSpace = [91, 97, 92, 32, 98, 93] := by
  decide

/-- C3 (evaluation at the failing input): feeding `a.b` to
`NamedUtilityMachine` emits the span 0–2 with slice `a.b` — a span with
no `[` and no `(` whose `.` (byte 46) is surrounded by the letters `a`
and `b`, not by digits. The Parsing state of named_utility_machine.rs
treats `.` like any ident character, with no digit-context rule. -/
theorem claim_C3_dot_between_letters_emitted :
    run NamedUtilityMachine.next {} inputDotted = [⟨0, 2⟩] ∧
    Span.slice ⟨0, 2⟩ inputDotted = [97, 46, 98] := by
  decide

/-- C4 (evaluation at the failing input): on the input `*:`,
`NamedVariantMachine` emits the span `*:` (0–1) but `VariantMachine`
emits nothing — its Idle state has no arm for `*` and its named branch
drives a `NamedUtilityMachine`, not a `NamedVariantMachine`, so the two
machines do not agree on inputs that start a named variant. -/
theorem claim_C4_star_variant_divergence :
    run VariantMachine.next {} inputStarColon = [] ∧
    run NamedVariantMachine.next {} inputStarColon = [⟨0, 1⟩] := by
  decide

/-- `%w[%w(a) b]` — a word array whose payload contains a nested `%w(`
marker. -/
def inputNestedRuby : List Nat := [37, 119, 91, 37, 119, 40, 97, 41, 32, 98, 93]

/-- C6 counterexample: `Ruby::process` is not idempotent. On
`%w[%w(a) b]` one pass yields `%w %w(a) b ` (the outer group's
delimiters become spaces; the interior is kept verbatim); the second
pass then recognises the now-exposed `%w(` marker and rewrites the inner
parentheses, yielding `%w %w a  b `. -/
theorem claim_C6_not_idempotent :
    Ruby.process (Ruby.process inputNestedRuby) ≠ Ruby.process inputNestedRuby := by
  decide

/-- C6 amended: the pre-processor is idempotent on the repository's own
word-array examples — `%w[flex px-2.5]`, `%w{flex px-2.5}` and
`%w[foo[bar baz]qux]` (ruby.rs tests) — though not on inputs whose
payload exposes a nested `%w` marker. -/
theorem claim_C6_idempotent_on_repo_examples :
    Ruby.process (Ruby.process [37, 119, 91, 102, 108, 101, 120, 32, 112, 120, 45,
      50, 46, 53, 93]) =
      Ruby.process [37, 119, 91, 102, 108, 101, 120, 32, 112, 120, 45, 50, 46, 53, 93] ∧
    Ruby.process (Ruby.process [37, 119, 123, 102, 108, 101, 120, 32, 112, 120, 45,
      50, 46, 53, 125]) =
      Ruby.process [37, 119, 123, 102, 108, 101, 120, 32, 112, 120, 45, 50, 46, 53, 125] ∧
    Ruby.process (Ruby.process [37, 119, 91, 102, 111, 111, 91, 98, 97, 114, 32, 98,
      97, 122, 93, 113, 117, 120, 93]) =
      Ruby.process [37, 119, 91, 102, 111, 111, 91, 98, 97, 114, 32, 98, 97, 122, 93,
        113, 117, 120, 93] := by
  decide

end Oxide

namespace Oxide

/-! ## Properties of `naive_drop_covered_spans` (C8) -/

theorem spanLe_total : ∀ a b : Span, spanLe a b ∨ spanLe b a := by
  intro a b
  unfold spanLe
  omega

instance : IsTotal Span spanLe := ⟨spanLe_total⟩

theorem spanLe_trans : ∀ a b c : Span, spanLe a b → spanLe b c → spanLe a c := by
  intro a b c
  unfold spanLe
  omega

instance : IsTrans Span spanLe := ⟨spanLe_trans⟩

theorem dropCoveredGo_sublist :
    ∀ (l : List Span) (e : Option Nat), (dropCoveredGo e l).Sublist l := by
  intro l
  induction l with
  | nil => intro e; cases e <;> simp [dropCoveredGo]
  | cons h t ih =>
    intro e
    cases e with
    | none =>
      simpa only [dropCoveredGo] using (ih (some h.stop)).cons₂ h
    | some e' =>
      simp only [dropCoveredGo]
      split
      · exact (ih (some h.stop)).cons₂ h
      · exact (ih (some e')).cons h

theorem dropCoveredGo_stop_gt :
    ∀ (l : List Span) (e : Nat) (s : Span), s ∈ dropCoveredGo (some e) l → e < s.stop := by
  intro l
  induction l with
  | nil => intro e s hs; simp [dropCoveredGo] at hs
  | cons h t ih =>
    intro e s hs
    simp only [dropCoveredGo] at hs
    split at hs
    · rcases List.mem_cons.mp hs with rfl | hmem
      · omega
      · have := ih h.stop s hmem
        omega
    · exact ih e s hs

theorem dropCoveredGo_pairwise :
    ∀ (l : List Span) (e : Option Nat), l.Pairwise spanLe →
      (dropCoveredGo e l).Pairwise (fun a b => a.start < b.start ∧ a.stop < b.stop) := by
  intro l
  induction l with
  | nil => intro e _; cases e <;> simp [dropCoveredGo]
  | cons h t ih =>
    intro e hp
    rw [List.pairwise_cons] at hp
    have hhead : ∀ x ∈ dropCoveredGo (some h.stop) t,
        h.start < x.start ∧ h.stop < x.stop := by
      intro x hx
      have hstop : h.stop < x.stop := dropCoveredGo_stop_gt t h.stop x hx
      have hxt : x ∈ t := (dropCoveredGo_sublist t (some h.stop)).mem hx
      have hle : spanLe h x := hp.1 x hxt
      unfold spanLe at hle
      omega
    cases e with
    | none =>
      simp only [dropCoveredGo]
      exact List.pairwise_cons.mpr ⟨hhead, ih (some h.stop) hp.2⟩
    | some e' =>
      simp only [dropCoveredGo]
      split
      · exact List.pairwise_cons.mpr ⟨hhead, ih (some h.stop) hp.2⟩
      · exact ih (some e') hp.2

theorem dropCoveredGo_max_end :
    ∀ (l : List Span) (e : Option Nat), l.Pairwise spanLe →
      ∀ s ∈ dropCoveredGo e l, ∀ c ∈ l, c.start = s.start → c.stop ≤ s.stop := by
  intro l
  induction l with
  | nil => intro e _ s hs; simp [dropCoveredGo] at hs
  | cons h t ih =>
    intro e hp s hs c hc hstart
    rw [List.pairwise_cons] at hp
    have kept :
        s ∈ h :: dropCoveredGo (some h.stop) t → c.stop ≤ s.stop := by
      intro hs'
      rcases List.mem_cons.mp hs' with rfl | hmem
      · rcases List.mem_cons.mp hc with rfl | hct
        · exact le_refl _
        · have hle := hp.1 c hct
          unfold spanLe at hle
          omega
      · rcases List.mem_cons.mp hc with rfl | hct
        · have := dropCoveredGo_stop_gt t c.stop s hmem
          omega
        · exact ih (some h.stop) hp.2 s hmem c hct hstart
    cases e with
    | none =>
      rw [dropCoveredGo] at hs
      exact kept hs
    | some e' =>
      rw [dropCoveredGo] at hs
      split at hs
      · exact kept hs
      · rcases List.mem_cons.mp hc with rfl | hct
        · have := dropCoveredGo_stop_gt t e' s hs
          omega
        · exact ih (some e') hp.2 s hs c hct hstart

end Oxide

namespace Oxide

/-- C8: `naive_drop_covered_spans` returns a subset of its input spans;
the retained spans appear in left-to-right (sorted-by-start) order; no
two distinct retained spans have one strictly covering the other (in
either direction); and a retained span always has the greatest end among
the input spans sharing its start position. -/
theorem claim_C8_naive_drop_covered_spans (spans : List Span) :
    (∀ s ∈ naiveDropCoveredSpans spans, s ∈ spans) ∧
    (naiveDropCoveredSpans spans).Pairwise (fun a b => a.start ≤ b.start) ∧
    (naiveDropCoveredSpans spans).Pairwise (fun a b =>
      ¬(a.start ≤ b.start ∧ b.stop ≤ a.stop) ∧
      ¬(b.start ≤ a.start ∧ a.stop ≤ b.stop)) ∧
    (∀ s ∈ naiveDropCoveredSpans spans, ∀ c ∈ spans,
      c.start = s.start → c.stop ≤ s.stop) := by
  have hsorted : (List.insertionSort spanLe spans).Pairwise spanLe :=
    List.sorted_insertionSort spanLe spans
  have hperm := List.perm_insertionSort spanLe spans
  have hpw := dropCoveredGo_pairwise (List.insertionSort spanLe spans) none hsorted
  have hsub := dropCoveredGo_sublist (List.insertionSort spanLe spans) none
  unfold naiveDropCoveredSpans
  refine ⟨?_, ?_, ?_, ?_⟩
  · intro s hs
    exact hperm.mem_iff.mp (hsub.mem hs)
  · exact hpw.imp (fun h => le_of_lt h.1)
  · refine hpw.imp (fun h => ?_)
    obtain ⟨h1, h2⟩ := h
    exact ⟨fun hco => by omega, fun hco => by omega⟩
  · intro s hs c hc hstart
    exact dropCoveredGo_max_end (List.insertionSort spanLe spans) none hsorted s hs c
      (hperm.mem_iff.mpr hc) hstart

/-- Witness for C8 at the concrete input `[(0,5), (0,3)]`: the retained
span `(0,5)` is one of the inputs, and the dropped `(0,3)` shares its
start with a retained span of larger end. -/
theorem claim_C8_witness :
    (⟨0, 5⟩ : Span) ∈ [(⟨0, 5⟩ : Span), ⟨0, 3⟩] ∧ (3 : Nat) ≤ 5 := by
  have h := claim_C8_naive_drop_covered_spans [⟨0, 5⟩, ⟨0, 3⟩]
  exact ⟨h.1 ⟨0, 5⟩ (by decide), h.2.2.2 ⟨0, 5⟩ (by decide) ⟨0, 3⟩ (by decide) (by decide)⟩

end Oxide


namespace Oxide

/-! ## StringMachine span invariants (C10) -/

/-- The byte that opens and closes a string of the given quote kind. -/
def quoteByteOf : QuoteKind → Nat
  | .single => 39
  | .double => 34
  | .backtick => 96

theorem sClass_eq_quote {b : Nat} {k : QuoteKind} (h : sClass b = k.sclass) :
    b = quoteByteOf k := by
  cases k <;>
    (simp only [QuoteKind.sclass] at h
     unfold sClass at h
     split_ifs at h <;> simp_all [quoteByteOf])

theorem isQuoteByte_quoteByteOf (k : QuoteKind) : isQuoteByte (quoteByteOf k) := by
  cases k <;> decide

/-- The quote-opening invariant of a `StringMachine` relative to the
input and a position `p` that has not been fed yet: while parsing, the
recorded start position lies strictly before `p` and holds the opening
quote byte of the expected kind. -/
def StringInv (input : List Nat) (p : Nat) (m : StringMachine) : Prop :=
  ∀ k, m.state = .parsing k →
    input.getD m.start_pos 0 = quoteByteOf k ∧ m.start_pos < p

/-- One-step specification of `StringMachine::step` at position `p`. -/
theorem stringMachine_step_spec (input : List Nat) (p : Nat) (m : StringMachine)
    (hinv : StringInv input p m) :
    (∀ k, ((StringMachine.step m ⟨input, p⟩).1).state = .parsing k →
      input.getD ((StringMachine.step m ⟨input, p⟩).1).start_pos 0 = quoteByteOf k ∧
      ((StringMachine.step m ⟨input, p⟩).1).start_pos ≤ p) ∧
    (∀ s, (StringMachine.step m ⟨input, p⟩).2 = .done s →
      s.start < s.stop ∧ input.getD s.start 0 = input.getD s.stop 0 ∧
      isQuoteByte (input.getD s.start 0)) := by
  unfold StringMachine.step
  split
  next hst =>
    split
    next hclass =>
      refine ⟨?_, fun s hs => by cases hs⟩
      intro k hk
      cases hk
      refine ⟨?_, le_refl _⟩
      simpa [Cursor.curr, Cursor.pos] using sClass_eq_quote (k := .single) hclass
    next hclass =>
      refine ⟨?_, fun s hs => by cases hs⟩
      intro k hk
      cases hk
      refine ⟨?_, le_refl _⟩
      simpa [Cursor.curr, Cursor.pos] using sClass_eq_quote (k := .double) hclass
    next hclass =>
      refine ⟨?_, fun s hs => by cases hs⟩
      intro k hk
      cases hk
      refine ⟨?_, le_refl _⟩
      simpa [Cursor.curr, Cursor.pos] using sClass_eq_quote (k := .backtick) hclass
    next =>
      refine ⟨?_, fun s hs => by cases hs⟩
      intro k hk
      rw [hst] at hk
      cases hk
  next k hst =>
    obtain ⟨hb, hlt⟩ := hinv k hst
    split_ifs with h1 h2 h3 h4
    · exact ⟨fun k' hk' => by simp at hk', fun s hs => by cases hs⟩
    · refine ⟨?_, fun s hs => by cases hs⟩
      intro k' hk'
      simp only at hk'
      rw [hst] at hk'
      cases hk'
      exact ⟨hb, le_of_lt hlt⟩
    · refine ⟨fun k' hk' => by simp at hk', ?_⟩
      intro s hs
      cases hs
      have hq : input.getD p 0 = quoteByteOf k := sClass_eq_quote h3
      refine ⟨hlt, ?_, ?_⟩
      · simp only
        rw [hb, hq]
      · simp only
        rw [hb]
        exact isQuoteByte_quoteByteOf k
    · exact ⟨fun k' hk' => by simp at hk', fun s hs => by cases hs⟩
    · refine ⟨?_, fun s hs => by cases hs⟩
      intro k' hk'
      rw [hst] at hk'
      cases hk'
      exact ⟨hb, le_of_lt hlt⟩

/-- One-step specification of `StringMachine::next` at position `p`. -/
theorem stringMachine_next_spec (input : List Nat) (p : Nat) (m : StringMachine)
    (hinv : StringInv input p m) :
    (∀ k, ((StringMachine.next m ⟨input, p⟩).1).state = .parsing k →
      input.getD ((StringMachine.next m ⟨input, p⟩).1).start_pos 0 = quoteByteOf k ∧
      ((StringMachine.next m ⟨input, p⟩).1).start_pos ≤ p) ∧
    (∀ s, (StringMachine.next m ⟨input, p⟩).2 = .done s →
      s.start < s.stop ∧ input.getD s.start 0 = input.getD s.stop 0 ∧
      isQuoteByte (input.getD s.start 0)) := by
  unfold StringMachine.next
  split
  next skipUntil hsk =>
    split
    · refine ⟨?_, fun s hs => by cases hs⟩
      intro k hk
      obtain ⟨h1, h2⟩ := hinv k hk
      exact ⟨h1, le_of_lt h2⟩
    · exact stringMachine_step_spec input p { m with skip_until_pos := none }
        (fun k hk => hinv k hk)
  next hsk => exact stringMachine_step_spec input p m hinv

/-- Run-level invariant for `StringMachine` over strictly increasing
positions. -/
theorem runOn_string_spec :
    ∀ (ps : List Nat) (input : List Nat) (m : StringMachine),
      List.Pairwise (· < ·) ps →
      (∀ p ∈ ps, StringInv input p m) →
      ∀ s ∈ runOn StringMachine.next m input ps,
        s.start < s.stop ∧ input.getD s.start 0 = input.getD s.stop 0 ∧
        isQuoteByte (input.getD s.start 0) := by
  intro ps
  induction ps with
  | nil => intro input m _ _ s hs; simp [runOn] at hs
  | cons p ps ih =>
    intro input m hpw hinv s hs
    rw [List.pairwise_cons] at hpw
    have hspec := stringMachine_next_spec input p m (hinv p (List.mem_cons_self p ps))
    rcases hres : StringMachine.next m ⟨input, p⟩ with ⟨m', r⟩
    rw [hres] at hspec
    have hinv' : ∀ q ∈ ps, StringInv input q m' := by
      intro q hq k hk
      obtain ⟨h1, h2⟩ := hspec.1 k hk
      exact ⟨h1, lt_of_le_of_lt h2 (hpw.1 q hq)⟩
    rw [runOn, hres] at hs
    cases r with
    | done s' =>
      rcases List.mem_cons.mp hs with rfl | hmem
      · exact hspec.2 s rfl
      · exact ih input m' hpw.2 hinv' s hmem
    | idle => exact ih input m' hpw.2 hinv' s hs
    | parsing => exact ih input m' hpw.2 hinv' s hs

/-- C10: provided `next` is called at strictly increasing cursor
positions, every span emitted by `StringMachine` has length at least 2
(`start < stop`), and its first and last bytes are equal and are one of
`"`, `'`, or backtick: the string is closed by the same quote kind that
opened it. -/
theorem claim_C10_string_machine_spans (input ps : List Nat)
    (hps : List.Pairwise (· < ·) ps) :
    ∀ s ∈ runOn StringMachine.next ({} : StringMachine) input ps,
      s.start < s.stop ∧ input.getD s.start 0 = input.getD s.stop 0 ∧
      isQuoteByte (input.getD s.start 0) :=
  runOn_string_spec ps input {} hps (fun _ _ k hk => by cases hk)

/-- Witness for C10 at the input `'a'` scanned at positions 0, 1, 2: the
emitted span 0–2 has matching single quotes at both ends. -/
theorem claim_C10_witness :
    (0 : Nat) < 2 ∧
    ([39, 97, 39] : List Nat).getD 0 0 = ([39, 97, 39] : List Nat).getD 2 0 ∧
    isQuoteByte (([39, 97, 39] : List Nat).getD 0 0) :=
  claim_C10_string_machine_spans [39, 97, 39] [0, 1, 2] (by decide) ⟨0, 2⟩ (by decide)

end Oxide

namespace Oxide

/-! ## The CandidateMachine object-key special case (C9) -/

/-- `{ flex!: true }` -/
def inputFlexBangKey : List Nat :=
  [123, 32, 102, 108, 101, 120, 33, 58, 32, 116, 114, 117, 101, 32, 125]

/-- `{ underline: true }` -/
def inputUnderlineKey : List Nat :=
  [123, 32, 117, 110, 100, 101, 114, 108, 105, 110, 101, 58, 32, 116, 114, 117, 101, 32, 125]

/-- `underline:` -/
def inputUnderlineColon : List Nat := [117, 110, 100, 101, 114, 108, 105, 110, 101, 58]

/-- The CandidateMachine state reached after scanning positions
`0, …, n-1` of `input` from the default state. -/
def cmAt (input : List Nat) (n : Nat) : CandidateMachine :=
  (List.range n).foldl (fun m i => (CandidateMachine.next m ⟨input, i⟩).1) {}

/-- C9 counterexample: at position 6 of `{ flex!: true }` the machine is
Parsing with no variant recorded, its UtilityMachine completes the span
`flex!` (2–6), the next byte is `:` and the byte at position 8 exists
and is a space — yet `next` returns Idle (the machine resumes at a
boundary) and the whole extraction yields only `true`: the emission
additionally requires the VariantMachine to be Parsing at that step,
which it is not (it idled at the `!`). -/
theorem claim_C9_counterexample :
    (cmAt inputFlexBangKey 6).state = .parsing ∧
    (cmAt inputFlexBangKey 6).last_variant_end_pos = none ∧
    ((cmAt inputFlexBangKey 6).utility_machine.next ⟨inputFlexBangKey, 6⟩).2 =
      .done ⟨2, 6⟩ ∧
    Cursor.next ⟨inputFlexBangKey, 6⟩ = 58 ∧
    inputFlexBangKey.get? 8 = some 32 ∧
    ((cmAt inputFlexBangKey 6).next ⟨inputFlexBangKey, 6⟩).2 = .idle ∧
    extract inputFlexBangKey = [.candidate [116, 114, 117, 101]] := by
  decide

/-- C9 amended: while CandidateMachine is Parsing with no variant
recorded and no skip pending, if at the current position the
VariantMachine reports Parsing while the UtilityMachine completes and
the next byte is `:`, then a candidate `start_pos..pos` is emitted
immediately if and only if the byte at `pos + 2` exists and is ASCII
whitespace. Hence `{ underline: true }` yields the candidates
`underline` and `true`, while `underline:` (the `:` being the last byte)
yields none. -/
theorem claim_C9_object_key_amended :
    (∀ (input : List Nat) (m : CandidateMachine) (p : Nat) (s : Span),
      m.skip_until_pos = none →
      m.state = .parsing →
      m.last_variant_end_pos = none →
      (m.variant_machine.next ⟨input, p⟩).2 = .parsing →
      (m.utility_machine.next ⟨input, p⟩).2 = .done s →
      Cursor.next ⟨input, p⟩ = 58 →
      ((m.next ⟨input, p⟩).2 = .done ⟨m.start_pos, p⟩ ↔
        ∃ x, input.get? (p + 2) = some x ∧ isWs x)) ∧
    extract inputUnderlineKey =
      [.candidate [117, 110, 100, 101, 114, 108, 105, 110, 101],
        .candidate [116, 114, 117, 101]] ∧
    extract inputUnderlineColon = [] := by
  refine ⟨?_, by decide, by decide⟩
  intro input m p s hskip hstate hvar hv hu hcolon
  unfold CandidateMachine.next
  rw [hskip]
  unfold CandidateMachine.step
  rw [hstate]
  simp only [hv, hu, hvar]
  have hcond : ((⟨input, p⟩ : Cursor).next == 58) = true := by simp [hcolon]
  rw [if_pos hcond]
  simp only [List.get?_eq_getElem?]
  cases hg : input[p + 2]? with
  | none => simp [hg]
  | some x =>
    by_cases hw : isWs x
    · simp [hg, hw]
    · simp [hg, hw]

end Oxide

namespace Oxide

/-! ## Reset-on-Done lemmas (C5) -/

theorem stringMachine_step_done (m : StringMachine) (c : Cursor) (m' : StringMachine)
    (s : Span) : StringMachine.step m c = (m', .done s) → m' = {} := by
  unfold StringMachine.step
  split <;> (try split_ifs) <;> (try split) <;> (try split_ifs) <;>
    (intro h; injection h with h1 h2; first | exact h1.symm | cases h2)

theorem stringMachine_next_done (m : StringMachine) (c : Cursor) (m' : StringMachine)
    (s : Span) : StringMachine.next m c = (m', .done s) → m' = {} := by
  unfold StringMachine.next
  split
  · split
    · intro h; injection h with h1 h2; cases h2
    · exact stringMachine_step_done _ _ _ _
  · exact stringMachine_step_done _ _ _ _

theorem cssVariableMachine_step_done (m : CssVariableMachine) (c : Cursor)
    (m' : CssVariableMachine) (s : Span) :
    CssVariableMachine.step m c = (m', .done s) → m' = {} := by
  unfold CssVariableMachine.step
  split <;> (try split_ifs) <;> (try split) <;> (try split_ifs) <;>
    (intro h; injection h with h1 h2; first | exact h1.symm | cases h2)

theorem cssVariableMachine_next_done (m : CssVariableMachine) (c : Cursor)
    (m' : CssVariableMachine) (s : Span) :
    CssVariableMachine.next m c = (m', .done s) → m' = {} := by
  unfold CssVariableMachine.next
  split
  · split
    · intro h; injection h with h1 h2; cases h2
    · exact cssVariableMachine_step_done _ _ _ _
  · exact cssVariableMachine_step_done _ _ _ _

theorem arbitraryValueMachine_step_done (m : ArbitraryValueMachine) (c : Cursor)
    (m' : ArbitraryValueMachine) (s : Span) :
    ArbitraryValueMachine.step m c = (m', .done s) → m' = {} := by
  unfold ArbitraryValueMachine.step
  split <;> (try split_ifs) <;> (try split) <;> (try split_ifs) <;>
    (intro h; injection h with h1 h2; first | exact h1.symm | cases h2)

theorem arbitraryValueMachine_next_done (m : ArbitraryValueMachine) (c : Cursor)
    (m' : ArbitraryValueMachine) (s : Span) :
    ArbitraryValueMachine.next m c = (m', .done s) → m' = {} := by
  unfold ArbitraryValueMachine.next
  split
  · split
    · intro h; injection h with h1 h2; cases h2
    · exact arbitraryValueMachine_step_done _ _ _ _
  · exact arbitraryValueMachine_step_done _ _ _ _

set_option maxHeartbeats 2000000 in
theorem arbitraryVariableMachine_step_done (m : ArbitraryVariableMachine) (c : Cursor)
    (m' : ArbitraryVariableMachine) (s : Span) :
    ArbitraryVariableMachine.step m c = (m', .done s) → m' = {} := by
  unfold ArbitraryVariableMachine.step
  split <;> (try split_ifs) <;> (try split) <;> (try split_ifs) <;>
    (intro h; injection h with h1 h2; first | exact h1.symm | cases h2)

theorem arbitraryVariableMachine_next_done (m : ArbitraryVariableMachine) (c : Cursor)
    (m' : ArbitraryVariableMachine) (s : Span) :
    ArbitraryVariableMachine.next m c = (m', .done s) → m' = {} := by
  unfold ArbitraryVariableMachine.next
  split
  · split
    · intro h; injection h with h1 h2; cases h2
    · exact arbitraryVariableMachine_step_done _ _ _ _
  · exact arbitraryVariableMachine_step_done _ _ _ _

set_option maxHeartbeats 2000000 in
theorem arbitraryPropertyMachine_step_done (m : ArbitraryPropertyMachine) (c : Cursor)
    (m' : ArbitraryPropertyMachine) (s : Span) :
    ArbitraryPropertyMachine.step m c = (m', .done s) → m' = {} := by
  unfold ArbitraryPropertyMachine.step
  split <;> (try split_ifs) <;> (try split) <;> (try split_ifs) <;>
    (intro h; injection h with h1 h2; first | exact h1.symm | cases h2)

theorem arbitraryPropertyMachine_next_done (m : ArbitraryPropertyMachine) (c : Cursor)
    (m' : ArbitraryPropertyMachine) (s : Span) :
    ArbitraryPropertyMachine.next m c = (m', .done s) → m' = {} := by
  unfold ArbitraryPropertyMachine.next
  split
  · split
    · intro h; injection h with h1 h2; cases h2
    · exact arbitraryPropertyMachine_step_done _ _ _ _
  · exact arbitraryPropertyMachine_step_done _ _ _ _

theorem modifierMachine_step_done (m : ModifierMachine) (c : Cursor) (m' : ModifierMachine)
    (s : Span) : ModifierMachine.step m c = (m', .done s) → m' = {} := by
  unfold ModifierMachine.step
  split <;> (try split_ifs) <;> (try split) <;> (try split_ifs) <;>
    (intro h; injection h with h1 h2; first | exact h1.symm | cases h2)

theorem modifierMachine_next_done (m : ModifierMachine) (c : Cursor) (m' : ModifierMachine)
    (s : Span) : ModifierMachine.next m c = (m', .done s) → m' = {} := by
  unfold ModifierMachine.next
  split
  · split
    · intro h; injection h with h1 h2; cases h2
    · exact modifierMachine_step_done _ _ _ _
  · exact modifierMachine_step_done _ _ _ _

theorem namedUtilityMachine_step_done (m : NamedUtilityMachine) (c : Cursor)
    (m' : NamedUtilityMachine) (s : Span) :
    NamedUtilityMachine.step m c = (m', .done s) → m' = {} := by
  unfold NamedUtilityMachine.step
  split <;> (try split_ifs) <;> (try split) <;> (try split_ifs) <;>
    (intro h; injection h with h1 h2; first | exact h1.symm | cases h2)

theorem namedUtilityMachine_next_done (m : NamedUtilityMachine) (c : Cursor)
    (m' : NamedUtilityMachine) (s : Span) :
    NamedUtilityMachine.next m c = (m', .done s) → m' = {} := by
  unfold NamedUtilityMachine.next
  split
  · split
    · intro h; injection h with h1 h2; cases h2
    · exact namedUtilityMachine_step_done _ _ _ _
  · exact namedUtilityMachine_step_done _ _ _ _

theorem namedVariantMachine_next_done (m : NamedVariantMachine) (c : Cursor)
    (m' : NamedVariantMachine) (s : Span) :
    NamedVariantMachine.next m c = (m', .done s) → m' = {} := by
  unfold NamedVariantMachine.next
  split <;> (try split_ifs) <;> (try split) <;> (try split_ifs) <;>
    (intro h; injection h with h1 h2; first | exact h1.symm | cases h2)

theorem variantMachine_step_done (m : VariantMachine) (c : Cursor) (m' : VariantMachine)
    (s : Span) : VariantMachine.step m c = (m', .done s) → m' = {} := by
  unfold VariantMachine.step
  split <;> (try split_ifs) <;> (try split) <;> (try split_ifs) <;>
    (intro h; injection h with h1 h2; first | exact h1.symm | cases h2)

theorem variantMachine_next_done (m : VariantMachine) (c : Cursor) (m' : VariantMachine)
    (s : Span) : VariantMachine.next m c = (m', .done s) → m' = {} := by
  unfold VariantMachine.next
  split
  · split
    · intro h; injection h with h1 h2; cases h2
    · exact variantMachine_step_done _ _ _ _
  · exact variantMachine_step_done _ _ _ _

end Oxide

namespace Oxide

/-- `ab ` -/
def inputAbSpace : List Nat := [97, 98, 32]

/-- C5 counterexample: the claim fails for CandidateMachine (and for
UtilityMachine). Scanning `ab `, CandidateMachine returns
`Done(0..1)` at position 1 while its state afterwards is still
`Parsing` — not bytewise equal to a fresh instance. Likewise
UtilityMachine on the single-character utility `a` returns `Done(0..0)`
from its Idle state while leaving itself in `ParsingNamedUtility`. -/
theorem claim_C5_counterexample :
    ((cmAt inputAbSpace 1).next ⟨inputAbSpace, 1⟩).2 = .done ⟨0, 1⟩ ∧
    cmAt inputAbSpace 2 ≠ ({} : CandidateMachine) ∧
    (cmAt inputAbSpace 2).state = .parsing ∧
    (({} : UtilityMachine).next ⟨[97], 0⟩).2 = .done ⟨0, 0⟩ ∧
    (({} : UtilityMachine).next ⟨[97], 0⟩).1 ≠ ({} : UtilityMachine) ∧
    (({} : UtilityMachine).next ⟨[97], 0⟩).1.state = .parsingNamedUtility := by
  decide

/-- C5 amended: for every sub-machine except CandidateMachine and
UtilityMachine — that is, for StringMachine, CssVariableMachine,
ArbitraryValueMachine, ArbitraryVariableMachine,
ArbitraryPropertyMachine, ModifierMachine, NamedUtilityMachine,
NamedVariantMachine and VariantMachine — whenever `next(cursor)` returns
`Done(span)`, the machine state immediately after the call is bytewise
equivalent to a freshly default-constructed instance. CandidateMachine
and UtilityMachine may pass a sub-machine's `Done` through without
resetting themselves. -/
theorem claim_C5_done_resets_machine :
    (∀ (m : StringMachine) (c : Cursor) (m' : StringMachine) (s : Span),
      StringMachine.next m c = (m', .done s) → m' = {}) ∧
    (∀ (m : CssVariableMachine) (c : Cursor) (m' : CssVariableMachine) (s : Span),
      CssVariableMachine.next m c = (m', .done s) → m' = {}) ∧
    (∀ (m : ArbitraryValueMachine) (c : Cursor) (m' : ArbitraryValueMachine) (s : Span),
      ArbitraryValueMachine.next m c = (m', .done s) → m' = {}) ∧
    (∀ (m : ArbitraryVariableMachine) (c : Cursor) (m' : ArbitraryVariableMachine)
      (s : Span), ArbitraryVariableMachine.next m c = (m', .done s) → m' = {}) ∧
    (∀ (m : ArbitraryPropertyMachine) (c : Cursor) (m' : ArbitraryPropertyMachine)
      (s : Span), ArbitraryPropertyMachine.next m c = (m', .done s) → m' = {}) ∧
    (∀ (m : ModifierMachine) (c : Cursor) (m' : ModifierMachine) (s : Span),
      ModifierMachine.next m c = (m', .done s) → m' = {}) ∧
    (∀ (m : NamedUtilityMachine) (c : Cursor) (m' : NamedUtilityMachine) (s : Span),
      NamedUtilityMachine.next m c = (m', .done s) → m' = {}) ∧
    (∀ (m : NamedVariantMachine) (c : Cursor) (m' : NamedVariantMachine) (s : Span),
      NamedVariantMachine.next m c = (m', .done s) → m' = {}) ∧
    (∀ (m : VariantMachine) (c : Cursor) (m' : VariantMachine) (s : Span),
      VariantMachine.next m c = (m', .done s) → m' = {}) :=
  ⟨stringMachine_next_done, cssVariableMachine_next_done, arbitraryValueMachine_next_done,
    arbitraryVariableMachine_next_done, arbitraryPropertyMachine_next_done,
    modifierMachine_next_done, namedUtilityMachine_next_done, namedVariantMachine_next_done,
    variantMachine_next_done⟩

/-- Witness for the amended C5 at one concrete `Done` per machine:
a closing `'` for StringMachine at position 2 of `'a'`; the end of
`--a` for CssVariableMachine; the closing `]` of `[a]`; a `)` in
ParsingEnd for ArbitraryVariableMachine; the closing `]` of `[a:b]`; the
end of the named modifier `/a`; the single-character utility `a`; and
the closing `:` for the two variant machines. -/
theorem claim_C5_witness :
    (StringMachine.next { start_pos := 0, state := .parsing .single } ⟨[39, 97, 39], 2⟩).1 =
      ({} : StringMachine) ∧
    (CssVariableMachine.next { start_pos := 0, state := .parsing } ⟨[45, 45, 97], 2⟩).1 =
      ({} : CssVariableMachine) ∧
    (ArbitraryValueMachine.next { start_pos := 0, state := .parsing } ⟨[91, 97, 93], 2⟩).1 =
      ({} : ArbitraryValueMachine) ∧
    (ArbitraryVariableMachine.next { start_pos := 0, state := .parsingEnd } ⟨[41], 0⟩).1 =
      ({} : ArbitraryVariableMachine) ∧
    (ArbitraryPropertyMachine.next { start_pos := 0, state := .parsingValue }
      ⟨[91, 97, 58, 98, 93], 4⟩).1 = ({} : ArbitraryPropertyMachine) ∧
    (ModifierMachine.next { start_pos := 0, state := .parsingNamed } ⟨[47, 97], 1⟩).1 =
      ({} : ModifierMachine) ∧
    (NamedUtilityMachine.next ({} : NamedUtilityMachine) ⟨[97], 0⟩).1 =
      ({} : NamedUtilityMachine) ∧
    (NamedVariantMachine.next { start_pos := 0, state := .parseEnd } ⟨[58], 0⟩).1 =
      ({} : NamedVariantMachine) ∧
    (VariantMachine.next { start_pos := 0, state := .parseEnd } ⟨[58], 0⟩).1 =
      ({} : VariantMachine) :=
  by
  refine ⟨?_, ?_, ?_, ?_, ?_, ?_, ?_, ?_, ?_⟩
  · exact claim_C5_done_resets_machine.1
      { start_pos := 0, state := .parsing .single } ⟨[39, 97, 39], 2⟩ _ ⟨0, 2⟩ (by decide)
  · exact claim_C5_done_resets_machine.2.1
      { start_pos := 0, state := .parsing } ⟨[45, 45, 97], 2⟩ _ ⟨0, 2⟩ (by decide)
  · exact claim_C5_done_resets_machine.2.2.1
      { start_pos := 0, state := .parsing } ⟨[91, 97, 93], 2⟩ _ ⟨0, 2⟩ (by decide)
  · exact claim_C5_done_resets_machine.2.2.2.1
      { start_pos := 0, state := .parsingEnd } ⟨[41], 0⟩ _ ⟨0, 0⟩ (by decide)
  · exact claim_C5_done_resets_machine.2.2.2.2.1
      { start_pos := 0, state := .parsingValue } ⟨[91, 97, 58, 98, 93], 4⟩ _ ⟨0, 4⟩ (by decide)
  · exact claim_C5_done_resets_machine.2.2.2.2.2.1
      { start_pos := 0, state := .parsingNamed } ⟨[47, 97], 1⟩ _ ⟨0, 1⟩ (by decide)
  · exact claim_C5_done_resets_machine.2.2.2.2.2.2.1 {} ⟨[97], 0⟩ _ ⟨0, 0⟩ (by decide)
  · exact claim_C5_done_resets_machine.2.2.2.2.2.2.2.1
      { start_pos := 0, state := .parseEnd } ⟨[58], 0⟩ _ ⟨0, 0⟩ (by decide)
  · exact claim_C5_done_resets_machine.2.2.2.2.2.2.2.2
      { start_pos := 0, state := .parseEnd } ⟨[58], 0⟩ _ ⟨0, 0⟩ (by decide)

end Oxide

namespace Oxide

/-! ## Span bounds (C7) -/

/-- Bounds of an emitted span: it starts no later than the position it
was emitted at and ends exactly there. -/
abbrev SpanAt (p : Nat) (s : Span) : Prop := s.start ≤ p ∧ s.stop = p

theorem cssVariableMachine_step_wf (m : CssVariableMachine) (c : Cursor)
    (m' : CssVariableMachine) (r : MachineState) (hwf : m.start_pos ≤ c.pos) :
    CssVariableMachine.step m c = (m', r) →
    m'.start_pos ≤ c.pos + 1 ∧ ∀ s, r = .done s → SpanAt c.pos s := by
  unfold CssVariableMachine.step
  split <;> split_ifs <;>
    (intro h
     injection h with h1 h2
     subst h1
     subst h2
     refine ⟨by first | omega | (dsimp only; omega), ?_⟩
     intro s hs
     cases hs <;> exact ⟨by first | exact hwf | exact le_refl _, rfl⟩)

theorem cssVariableMachine_next_wf (m : CssVariableMachine) (c : Cursor)
    (m' : CssVariableMachine) (r : MachineState) (hwf : m.start_pos ≤ c.pos) :
    CssVariableMachine.next m c = (m', r) →
    m'.start_pos ≤ c.pos + 1 ∧ ∀ s, r = .done s → SpanAt c.pos s := by
  unfold CssVariableMachine.next
  split
  · split
    · intro h
      injection h with h1 h2
      subst h1
      subst h2
      exact ⟨by omega, fun s hs => by cases hs⟩
    · exact cssVariableMachine_step_wf { m with skip_until_pos := none } c m' r hwf
  · exact cssVariableMachine_step_wf m c m' r hwf

theorem namedUtilityMachine_step_wf (m : NamedUtilityMachine) (c : Cursor)
    (m' : NamedUtilityMachine) (r : MachineState) (hwf : m.start_pos ≤ c.pos) :
    NamedUtilityMachine.step m c = (m', r) →
    m'.start_pos ≤ c.pos + 1 ∧ ∀ s, r = .done s → SpanAt c.pos s := by
  unfold NamedUtilityMachine.step
  split <;> (try split_ifs) <;> (try split) <;> (try split_ifs) <;>
    (intro h
     injection h with h1 h2
     subst h1
     subst h2
     refine ⟨by first | omega | (dsimp only; omega), ?_⟩
     intro s hs
     cases hs <;> exact ⟨by first | exact hwf | exact le_refl _, rfl⟩)

theorem namedUtilityMachine_next_wf (m : NamedUtilityMachine) (c : Cursor)
    (m' : NamedUtilityMachine) (r : MachineState) (hwf : m.start_pos ≤ c.pos) :
    NamedUtilityMachine.next m c = (m', r) →
    m'.start_pos ≤ c.pos + 1 ∧ ∀ s, r = .done s → SpanAt c.pos s := by
  unfold NamedUtilityMachine.next
  split
  · split
    · intro h
      injection h with h1 h2
      subst h1
      subst h2
      exact ⟨by omega, fun s hs => by cases hs⟩
    · exact namedUtilityMachine_step_wf { m with skip_until_pos := none } c m' r hwf
  · exact namedUtilityMachine_step_wf m c m' r hwf

end Oxide

namespace Oxide

/-- Well-formedness of a UtilityMachine at position `p`: its own start
and its NamedUtilityMachine's start (whose `Done` spans it passes
through) lie at or before `p`. -/
abbrev UtilityMachine.WF (m : UtilityMachine) (p : Nat) : Prop :=
  m.start_pos ≤ p ∧ m.named_utility_machine.start_pos ≤ p

theorem utilityMachine_next_wf (m : UtilityMachine) (c : Cursor)
    (m' : UtilityMachine) (r : MachineState) (hwf : UtilityMachine.WF m c.pos) :
    UtilityMachine.next m c = (m', r) →
    UtilityMachine.WF m' (c.pos + 1) ∧ ∀ s, r = .done s → SpanAt c.pos s := by
  intro h
  rcases hn : NamedUtilityMachine.next m.named_utility_machine c with ⟨nm, nr⟩
  have hnwf := namedUtilityMachine_next_wf m.named_utility_machine c nm nr hwf.2 hn
  unfold UtilityMachine.next UtilityMachine.parseNamed at h
  cases nr <;>
    (simp only [hn] at h
     split at h <;> (try split_ifs at h) <;> (try split at h) <;> (try split_ifs at h) <;>
       (injection h with h1 h2
        subst h1
        subst h2
        refine ⟨⟨?_, ?_⟩, fun s hs => ?_⟩
        · first
            | exact Nat.le_succ_of_le hwf.1
            | exact Nat.le_succ _
            | exact Nat.zero_le _
        · first
            | exact Nat.le_succ_of_le hwf.2
            | exact hnwf.1
            | exact Nat.zero_le _
        · first
            | exact hnwf.2 s hs
            | (cases hs <;> exact ⟨hwf.1, rfl⟩)
            | (cases hs <;> exact hnwf.2 _ rfl)
            | cases hs))

end Oxide

namespace Oxide

/-- Well-formedness of a CandidateMachine at position `p`: its own start
and its UtilityMachine (whose `Done` spans it passes through) are
well-formed at `p`. -/
abbrev CandidateMachine.WF (m : CandidateMachine) (p : Nat) : Prop :=
  m.start_pos ≤ p ∧ UtilityMachine.WF m.utility_machine p

theorem candidateMachine_step_wf (m : CandidateMachine) (c : Cursor)
    (m' : CandidateMachine) (r : MachineState) (hwf : CandidateMachine.WF m c.pos) :
    CandidateMachine.step m c = (m', r) →
    CandidateMachine.WF m' (c.pos + 1) ∧ ∀ s, r = .done s → SpanAt c.pos s := by
  intro h
  rcases hu : UtilityMachine.next m.utility_machine c with ⟨um, ur⟩
  have huwf := utilityMachine_next_wf m.utility_machine c um ur hwf.2 hu
  rcases hv : VariantMachine.next m.variant_machine c with ⟨vm, vr⟩
  unfold CandidateMachine.step CandidateMachine.resumeAtBoundary at h
  cases ur <;> cases vr <;>
    (simp only [hu, hv] at h
     split at h <;> (try split_ifs at h) <;> (try split at h) <;> (try split_ifs at h) <;>
       (injection h with h1 h2
        subst h1
        subst h2
        refine ⟨⟨?_, ?_, ?_⟩, fun s hs => ?_⟩
        · first
            | exact Nat.le_succ_of_le hwf.1
            | exact Nat.le_succ _
            | exact Nat.zero_le _
        · first
            | exact huwf.1.1
            | exact Nat.le_succ_of_le hwf.2.1
            | exact Nat.zero_le _
        · first
            | exact huwf.1.2
            | exact Nat.le_succ_of_le hwf.2.2
            | exact Nat.zero_le _
        · first
            | (cases hs <;> exact ⟨hwf.1, rfl⟩)
            | (cases hs <;> exact huwf.2 _ rfl)
            | cases hs))

theorem candidateMachine_next_wf (m : CandidateMachine) (c : Cursor)
    (m' : CandidateMachine) (r : MachineState) (hwf : CandidateMachine.WF m c.pos) :
    CandidateMachine.next m c = (m', r) →
    CandidateMachine.WF m' (c.pos + 1) ∧ ∀ s, r = .done s → SpanAt c.pos s := by
  unfold CandidateMachine.next
  split
  · split
    · intro h
      injection h with h1 h2
      subst h1
      subst h2
      exact ⟨⟨Nat.le_succ_of_le hwf.1, Nat.le_succ_of_le hwf.2.1,
        Nat.le_succ_of_le hwf.2.2⟩, fun s hs => by cases hs⟩
    · exact candidateMachine_step_wf { m with skip_until_pos := none } c m' r hwf
  · exact candidateMachine_step_wf m c m' r hwf

end Oxide

namespace Oxide

/-- A span lying inside an input of length `len`. -/
abbrev SpanInBounds (len : Nat) (s : Span) : Prop := s.start ≤ s.stop ∧ s.stop < len

/-- Well-formedness of the extractor state before scanning position `p`:
the two span-producing machines are well-formed at `p` and all collected
spans are in bounds. (The nested candidate machines need no invariant:
their results are discarded.) -/
abbrev ExtractorState.WF (st : ExtractorState) (p len : Nat) : Prop :=
  CandidateMachine.WF st.candidate_machine p ∧
  st.css_variable_machine.start_pos ≤ p ∧
  (∀ s ∈ st.in_flight_spans, SpanInBounds len s) ∧
  (∀ s ∈ st.css_variable_spans, SpanInBounds len s)

theorem extractStep_wf (input : List Nat) (st : ExtractorState) (i : Nat)
    (hi : i < input.length) (hwf : st.WF i input.length) :
    (extractStep input st i).WF (i + 1) input.length := by
  rcases hcm : CandidateMachine.next st.candidate_machine ⟨input, i⟩ with ⟨cm, cr⟩
  have hcwf := candidateMachine_next_wf st.candidate_machine ⟨input, i⟩ cm cr hwf.1 hcm
  rcases hvm : CssVariableMachine.next st.css_variable_machine ⟨input, i⟩ with ⟨vm, vr⟩
  have hvwf := cssVariableMachine_next_wf st.css_variable_machine ⟨input, i⟩ vm vr
    hwf.2.1 hvm
  have hpos : (⟨input, i⟩ : Cursor).pos = i := rfl
  rw [hpos] at hcwf hvwf
  unfold extractStep
  cases cr <;> cases vr <;>
    (dsimp only
     simp only [hcm, hvm]
     (
       refine ⟨hcwf.1, hvwf.1, ?_, ?_⟩ <;>
         (intro s hs
          first
            | exact hwf.2.2.1 s hs
            | exact hwf.2.2.2 s hs
            | (rcases List.mem_append.mp hs with hs' | hs'
               · first
                   | exact hwf.2.2.1 s hs'
                   | exact hwf.2.2.2 s hs'
               · rw [List.mem_singleton] at hs'
                 subst hs'
                 first
                   | (obtain ⟨ha, hb⟩ := hcwf.2 _ rfl
                      exact ⟨by omega, by omega⟩)
                   | (obtain ⟨ha, hb⟩ := hvwf.2 _ rfl
                      exact ⟨by omega, by omega⟩)))))

/-- The scan loop preserves well-formedness. -/
theorem extractLoop_wf (input : List Nat) :
    ∀ (k i : Nat) (st : ExtractorState), i + k ≤ input.length →
      st.WF i input.length → (extractLoop input k i st).WF (i + k) input.length := by
  intro k
  induction k with
  | zero => intro i st _ hwf; exact hwf
  | succ k ih =>
    intro i st hk hwf
    have hi : i < input.length := by omega
    have hstep := extractStep_wf input st i hi hwf
    have := ih (i + 1) (extractStep input st i) (by omega) hstep
    rw [extractLoop]
    have harith : i + 1 + k = i + (k + 1) := by omega
    rw [harith] at this
    exact this

end Oxide

namespace Oxide

/-- The span carried by an extracted value. -/
def ExtractedSpan.span : ExtractedSpan → Span
  | .candidate s => s
  | .cssVariable s => s

/-- C7: for every input byte sequence (arbitrary binary data, 0x00
bytes, arbitrarily nested brackets), the scan of `Extractor::extract`
yields only spans with `start ≤ stop < len(input)`, for candidates and
CSS variables alike — every slice `input[start..=stop]` the extractor
takes is in bounds. (Termination and absence of panics hold by
construction: the embedding is a total function.) -/
theorem claim_C7_extract_spans_in_bounds (input : List Nat) :
    ∀ e ∈ extractSpans input, SpanInBounds input.length e.span := by
  intro e he
  have hinit : ExtractorState.WF {} 0 input.length := by
    refine ⟨⟨Nat.zero_le _, Nat.zero_le _, Nat.zero_le _⟩, Nat.zero_le _, ?_, ?_⟩ <;>
      (intro s hs; simp at hs)
  have hwf := extractLoop_wf input input.length 0 {} (by omega) hinit
  rw [Nat.zero_add] at hwf
  unfold extractSpans at he
  dsimp only at he
  split at he
  · rcases List.mem_append.mp he with hleft | hright
    · obtain ⟨s, hs, rfl⟩ := List.mem_map.mp hleft
      exact hwf.2.2.2 s hs
    · obtain ⟨s, hs, rfl⟩ := List.mem_map.mp hright
      unfold naiveDropCoveredSpans at hs
      have h1 := (dropCoveredGo_sublist (List.insertionSort spanLe
        (extractLoop input input.length 0 {}).in_flight_spans) none).mem hs
      have h2 := (List.perm_insertionSort spanLe
        (extractLoop input input.length 0 {}).in_flight_spans).mem_iff.mp h1
      exact hwf.2.2.1 s h2
  · obtain ⟨s, hs, rfl⟩ := List.mem_map.mp he
    exact hwf.2.2.2 s hs

/-- Witness for C7: on the input `flex`, the extracted candidate span
0–3 satisfies the bounds. -/
theorem claim_C7_witness :
    (0 : Nat) ≤ 3 ∧ 3 < ([102, 108, 101, 120] : List Nat).length :=
  claim_C7_extract_spans_in_bounds [102, 108, 101, 120] (.candidate ⟨0, 3⟩) (by decide)

end Oxide

namespace Oxide

/-- Witness for the amended C9 at position 10 of `{ underline: true }`:
the machine reached there is Parsing with no variant, the variant
machine reports Parsing, the utility machine completes `underline`
(2–10), the next byte is `:` and position 12 holds a space — so the
candidate span 2–10 is emitted at once. -/
theorem claim_C9_witness :
    ((cmAt inputUnderlineKey 10).next ⟨inputUnderlineKey, 10⟩).2 = .done ⟨2, 10⟩ :=
  (claim_C9_object_key_amended.1 inputUnderlineKey (cmAt inputUnderlineKey 10) 10 ⟨2, 10⟩
    (by decide) (by decide) (by decide) (by decide) (by decide) (by decide)).mpr
    ⟨32, by decide, by decide⟩

end Oxide
